import Mathlib

/-!
Verification of the polyphonic pitch-synth audio engine of the xenkeys
repository (src/src/worklets/pitch-synth.worklet.ts), against its
natural-language specification.

The embedding is shallow and follows the TypeScript source closely:

* JavaScript numbers carried by control messages and voice fields are
  modelled as rationals (ℚ); every finite IEEE double is a rational, and the
  operations the engine performs on these values (additions,
  multiplications, comparisons, floor, clamp) are exact at the inputs used
  here.
* The transcendental oscillator mathematics (Math.sin, Math.sqrt of the RMS
  computation) is modelled over ℝ.
* The mutable classes PolyVoice / PitchSynthProcessor become records;
  each mutating method becomes a function returning the updated record.
  PolyVoice.process both returns a sample and mutates the voice; it is
  split into PolyVoice.processOut (the returned sample, a function of the
  pre-state) and PolyVoice.processStep (the state update).
* The processor's onmessage handler becomes applyMsg; one sample of the
  render loop (each voice advanced once, the mix scaled and written out)
  becomes tickState / outSample / renderSamples.
-/

namespace XenSynth

/-- Envelope stage of a voice: the TS union type VoiceState
('idle' | 'attack' | 'decay' | 'sustain' | 'release'). -/
inductive VoiceState where
  | idle
  | attack
  | decay
  | sustain
  | release
deriving DecidableEq

/-- Waveform tags. The TS type is the closed string union of the ten known
tags; the constructor `other` stands for a runtime string tag outside the
known set (the worklet code defends against such tags with a default switch
branch and a lookup fallback), so `other s` is only used to model unknown
tags, never one of the ten known spellings. -/
inductive Waveform where
  | sine
  | square
  | triangle
  | sawtooth
  | power2
  | power3
  | power4
  | selfmod01
  | selfmod02
  | selfmod03
  | other (tag : String)
deriving DecidableEq

/-- ADSR configuration: the TS Envelope record
{attack, decay, release : seconds; sustain : level}. -/
structure Envelope where
  attack : ℚ
  decay : ℚ
  sustain : ℚ
  release : ℚ
deriving DecidableEq

/-- Source: const clamp = (x, lo, hi) => Math.max(lo, Math.min(hi, x)). -/
def clamp (x lo hi : ℚ) : ℚ := max lo (min hi x)

/-- Source: secondsToSamples(sec, sr) = Math.max(1, Math.floor(Math.max(0, sec) * sr)).
The result is a nonnegative integer, kept as ℕ. -/
def secondsToSamples (sec sr : ℚ) : ℕ :=
  max 1 (Int.toNat ⌊max 0 sec * sr⌋)

/-- Source: const RMS_SAMPLE_POINTS = 50. -/
def RMS_SAMPLE_POINTS : ℕ := 50

/-- Source: const RMS_NUM_CYCLES = 1. -/
def RMS_NUM_CYCLES : ℕ := 1

/-- Source: const AVG_EXPECTED_SIMULTANEOUS_VOICES = 6. -/
def AVG_EXPECTED_SIMULTANEOUS_VOICES : ℚ := 6

/-- Source: powerSin(phase, n) = Math.pow(Math.abs(s), n) * Math.sign(s)
with s = Math.sin(2π·phase). The exponents used by the engine are the
naturals 2, 3, 4. -/
noncomputable def powerSin (phase : ℝ) (n : ℕ) : ℝ :=
  |Real.sin (2 * Real.pi * phase)| ^ n * Real.sign (Real.sin (2 * Real.pi * phase))

/-- Source: oscSample(w, phase), the pure oscillator evaluated at a phase in
[0,1). The default switch branch (covering 'sine' and any unknown tag)
returns sin(2π·phase). -/
noncomputable def oscSample (w : Waveform) (phase : ℝ) : ℝ :=
  match w with
  | .square => if phase < 1/2 then 1 else -1
  | .triangle => 1 - 4 * |phase - 1/2|
  | .sawtooth => 2 * phase - 1
  | .power2 => powerSin phase 2
  | .power3 => powerSin phase 3
  | .power4 => powerSin phase 4
  | .selfmod01 =>
      Real.sin (2 * Real.pi * phase + (1/10) * (2 * Real.pi) * Real.sin (2 * Real.pi * phase))
  | .selfmod02 =>
      Real.sin (2 * Real.pi * phase + (2/10) * (2 * Real.pi) * Real.sin (2 * Real.pi * phase))
  | .selfmod03 =>
      Real.sin (2 * Real.pi * phase + (3/10) * (2 * Real.pi) * Real.sin (2 * Real.pi * phase))
  | .sine => Real.sin (2 * Real.pi * phase)
  | .other _ => Real.sin (2 * Real.pi * phase)

/-- The phase grid of computeWaveformRMS: phase = (i / pointsPerCycle) % 1,
computed exactly over ℚ (for the arguments used, the JS float expression
takes exactly these rational values; x % 1 = Int.fract x for x ≥ 0). -/
def rmsPhase (pointsPerCycle i : ℕ) : ℚ :=
  Int.fract ((i : ℚ) / pointsPerCycle)

/-- RMS of (a scaling of) an oscillator by uniform sampling, the body of
computeWaveformRMS generalised over the sampled function: totalPoints =
max(1, ⌊pointsPerCycle⌋) * max(1, ⌊cycles⌋), RMS = sqrt(mean of squares). -/
noncomputable def rmsOf (f : ℚ → ℝ) (pointsPerCycle cycles : ℕ) : ℝ :=
  Real.sqrt
    ((∑ i ∈ Finset.range (max 1 pointsPerCycle * max 1 cycles),
        f (rmsPhase pointsPerCycle i) ^ 2) /
      (max 1 pointsPerCycle * max 1 cycles : ℕ))

/-- Source: computeWaveformRMS(w, pointsPerCycle, cycles). -/
noncomputable def computeWaveformRMS (w : Waveform) (pointsPerCycle cycles : ℕ) : ℝ :=
  rmsOf (fun q => oscSample w (q : ℝ)) pointsPerCycle cycles

/-- Source: const KNOWN_WAVEFORMS = [...] (the ten known tags). -/
def KNOWN_WAVEFORMS : List Waveform :=
  [.sine, .square, .triangle, .sawtooth, .power2, .power3, .power4,
   .selfmod01, .selfmod02, .selfmod03]

/-- Source: const targetRMS = computeWaveformRMS('triangle', 50, 1). -/
noncomputable def targetRMS : ℝ :=
  computeWaveformRMS .triangle RMS_SAMPLE_POINTS RMS_NUM_CYCLES

/-- Source: the NORMALIZATION_GAIN record: for each known waveform w the
entry is r > 0 ? targetRMS / r : 1 with r = computeWaveformRMS(w, 50, 1);
reading the record at an unknown tag falls back to 1 (the `?? 1` at the
use site). -/
noncomputable def NORMALIZATION_GAIN (w : Waveform) : ℝ :=
  if w ∈ KNOWN_WAVEFORMS then
    if 0 < computeWaveformRMS w RMS_SAMPLE_POINTS RMS_NUM_CYCLES then
      targetRMS / computeWaveformRMS w RMS_SAMPLE_POINTS RMS_NUM_CYCLES
    else 1
  else 1

/-- The PolyVoice class fields, with the source's initial values as
defaults. `samples` is the phase sample counter `_samples`, `envSamples`
the stage sample counter, `noteId` the owner note id (0 = unassigned). -/
structure PolyVoice where
  sr : ℚ
  freq : ℚ := 440
  samples : ℕ := 0
  state : VoiceState := .idle
  envSamples : ℕ := 0
  attackSamples : ℕ := 0
  decaySamples : ℕ := 0
  releaseSamples : ℕ := 0
  sustainLevel : ℚ := 0
  noteId : ℚ := 0
  waveform : Waveform := .sine
deriving DecidableEq

/-- Source: new PolyVoice(sr). -/
def mkPolyVoice (sr : ℚ) : PolyVoice := { sr := sr }

/-- Source: PolyVoice.noteOn(freq, id, env). -/
def PolyVoice.noteOn (v : PolyVoice) (freq id : ℚ) (env : Envelope) : PolyVoice :=
  { v with
    freq := freq
    noteId := id
    state := .attack
    envSamples := 0
    samples := 0
    attackSamples := secondsToSamples env.attack v.sr
    decaySamples := secondsToSamples env.decay v.sr
    releaseSamples := secondsToSamples env.release v.sr
    sustainLevel := clamp env.sustain 0 1 }

/-- Source: PolyVoice.noteOff(id): if (state ≠ 'idle' ∧ noteId = id ∧
state ≠ 'release') enter 'release' and reset the stage counter. -/
def PolyVoice.noteOff (v : PolyVoice) (id : ℚ) : PolyVoice :=
  if v.state ≠ .idle ∧ v.noteId = id ∧ v.state ≠ .release then
    { v with state := .release, envSamples := 0 }
  else v

/-- Source: PolyVoice.forceRelease(): any non-idle voice enters 'release'
with the stage counter reset. -/
def PolyVoice.forceRelease (v : PolyVoice) : PolyVoice :=
  if v.state ≠ .idle then { v with state := .release, envSamples := 0 } else v

/-- Source: PolyVoice.setWaveform(w). -/
def PolyVoice.setWaveform (v : PolyVoice) (w : Waveform) : PolyVoice :=
  { v with waveform := w }

/-- The state update performed by one call of PolyVoice.process(): the
switch advances `envSamples` (with the post-increment comparison
`envSamples++ >= stageSamples` deciding the stage transition), and
`samples` is incremented on the fall-through path; the early returns
('idle', and the completing 'release' call, which also clears `noteId`)
skip the `samples` increment. -/
def PolyVoice.processStep (v : PolyVoice) : PolyVoice :=
  match v.state with
  | .idle => v
  | .attack =>
      if v.attackSamples ≤ v.envSamples then
        { v with state := .decay, envSamples := 0, samples := v.samples + 1 }
      else
        { v with envSamples := v.envSamples + 1, samples := v.samples + 1 }
  | .decay =>
      if v.decaySamples ≤ v.envSamples then
        { v with state := .sustain, envSamples := 0, samples := v.samples + 1 }
      else
        { v with envSamples := v.envSamples + 1, samples := v.samples + 1 }
  | .sustain => { v with samples := v.samples + 1 }
  | .release =>
      if v.releaseSamples ≤ v.envSamples then
        { v with state := .idle, envSamples := 0, noteId := 0 }
      else
        { v with envSamples := v.envSamples + 1, samples := v.samples + 1 }

/-- The envelope amplitude `envAmp` computed by PolyVoice.process() from the
pre-call state (the division is exact rational arithmetic; the stage sample
counts are ≥ 1 for any voice that has received noteOn). -/
def PolyVoice.envAmpQ (v : PolyVoice) : ℚ :=
  match v.state with
  | .idle => 0
  | .attack => (v.envSamples : ℚ) / v.attackSamples
  | .decay => 1 + (v.sustainLevel - 1) * ((v.envSamples : ℚ) / v.decaySamples)
  | .sustain => v.sustainLevel
  | .release => v.sustainLevel * (1 - (v.envSamples : ℚ) / v.releaseSamples)

/-- The oscillator phase of PolyVoice.process(): t = samples · freq / sr,
phase = t − ⌊t⌋ ∈ [0,1), computed exactly over ℚ. -/
def PolyVoice.phaseQ (v : PolyVoice) : ℚ :=
  Int.fract ((v.samples : ℚ) * v.freq / v.sr)

/-- The sample returned by one call of PolyVoice.process() as a function of
the pre-call state: 0 on the 'idle' early return and on the completing
'release' call; otherwise oscSample · normalization gain · envAmp (in the
source's multiplication order sample * norm, then * envAmp). -/
noncomputable def PolyVoice.processOut (v : PolyVoice) : ℝ :=
  match v.state with
  | .idle => 0
  | .release =>
      if v.releaseSamples ≤ v.envSamples then 0
      else
        oscSample v.waveform ((v.phaseQ : ℚ) : ℝ) * NORMALIZATION_GAIN v.waveform *
          ((v.envAmpQ : ℚ) : ℝ)
  | _ =>
      oscSample v.waveform ((v.phaseQ : ℚ) : ℝ) * NORMALIZATION_GAIN v.waveform *
        ((v.envAmpQ : ℚ) : ℝ)

/-- A partial envelope (TS Partial Envelope): every field optional. -/
structure EnvelopeOverride where
  attack : Option ℚ := none
  decay : Option ℚ := none
  sustain : Option ℚ := none
  release : Option ℚ := none
deriving DecidableEq

/-- The PitchSynthMessage union carried by port.postMessage. -/
inductive Msg where
  | noteOn (id freq : ℚ) (envelope : Option EnvelopeOverride)
  | noteOff (id : ℚ)
  | waveform (w : Waveform)
  | setEnvelope (e : EnvelopeOverride)
  | allNotesOff
  | setPolyphony (voices : ℚ)
deriving DecidableEq

/-- Source: const DEFAULT_ENV = {attack: 0.01, decay: 0.1, sustain: 0.7,
release: 0.5}. -/
def DEFAULT_ENV : Envelope :=
  { attack := 1/100, decay := 1/10, sustain := 7/10, release := 1/2 }

/-- The PitchSynthProcessor state: the voice pool, the engine-wide base
envelope and current waveform, plus the worklet-global sampleRate. -/
structure SynthState where
  sr : ℚ
  voices : List PolyVoice
  baseEnvelope : Envelope
  waveform : Waveform
deriving DecidableEq

/-- In-place mutation of the voice at index i (out-of-range: no change). -/
def updateAt (f : PolyVoice → PolyVoice) : ℕ → List PolyVoice → List PolyVoice
  | _, [] => []
  | 0, v :: vs => f v :: vs
  | i + 1, v :: vs => v :: updateAt f i vs

/-- Index of the first idle voice, if any: the index variant of
voices.find(v => v.state === 'idle'). -/
def firstIdle : List PolyVoice → Option ℕ
  | [] => none
  | v :: vs => if v.state = .idle then some 0 else (firstIdle vs).map (· + 1)

/-- Source: findFreeOrSteal(): the first idle voice if one exists, else the
voice at index 0 (returned here as the index of the chosen voice). -/
def findFreeOrSteal (voices : List PolyVoice) : ℕ :=
  (firstIdle voices).getD 0

/-- The shrink loop of resizeVoices: forceRelease() on every voice at index
≥ n (`for (let i = n; i < voices.length; i++) voices[i].forceRelease()`). -/
def releaseTail (n : ℕ) (l : List PolyVoice) : List PolyVoice :=
  l.take n ++ (l.drop n).map PolyVoice.forceRelease

/-- Source: resizeVoices(n): early return when n equals the current length;
grow by pushing new PolyVoice(sampleRate); shrink by force-releasing the
tail voices and then truncating (`voices.length = n`); afterwards the
current waveform is applied to every remaining voice. -/
def resizeVoices (s : SynthState) (n : ℕ) : SynthState :=
  if n = s.voices.length then s
  else
    let grown :=
      if s.voices.length < n then
        s.voices ++ List.replicate (n - s.voices.length) (mkPolyVoice s.sr)
      else
        (releaseTail n s.voices).take n
    { s with voices := grown.map (fun v => v.setWaveform s.waveform) }

/-- The voice objects that a shrinking resizeVoices(n) removes, as they are
at the moment their slot is dropped: each has just received forceRelease()
(source lines 333-334) and is truncated away in the same handler call. -/
def droppedAtShrink (s : SynthState) (n : ℕ) : List PolyVoice :=
  (s.voices.drop n).map PolyVoice.forceRelease

/-- Merging a noteOn envelope override onto the base envelope:
msg.data.envelope?.f ?? baseEnvelope.f, field by field. -/
def mergedNoteOnEnvelope (base : Envelope) (ov : Option EnvelopeOverride) : Envelope :=
  { attack := (ov.bind (fun e => e.attack)).getD base.attack
    decay := (ov.bind (fun e => e.decay)).getD base.decay
    sustain := (ov.bind (fun e => e.sustain)).getD base.sustain
    release := (ov.bind (fun e => e.release)).getD base.release }

/-- The port.onmessage handler of PitchSynthProcessor. -/
def applyMsg (s : SynthState) (m : Msg) : SynthState :=
  match m with
  | .noteOn id freq envOv =>
      let env := mergedNoteOnEnvelope s.baseEnvelope envOv
      let i := findFreeOrSteal s.voices
      { s with voices := updateAt (fun v => (v.setWaveform s.waveform).noteOn freq id env) i s.voices }
  | .noteOff id =>
      { s with voices := s.voices.map (fun v => v.noteOff id) }
  | .waveform w =>
      { s with waveform := w, voices := s.voices.map (fun v => v.setWaveform w) }
  | .setEnvelope e =>
      { s with baseEnvelope :=
        { attack := e.attack.getD s.baseEnvelope.attack
          decay := e.decay.getD s.baseEnvelope.decay
          sustain := e.sustain.getD s.baseEnvelope.sustain
          release := e.release.getD s.baseEnvelope.release } }
  | .allNotesOff =>
      { s with voices := s.voices.map PolyVoice.forceRelease }
  | .setPolyphony q =>
      resizeVoices s (Int.toNat (max 1 ⌊q⌋))

/-- The constructor of PitchSynthProcessor: empty pool resized to the
default polyphony 16, base envelope DEFAULT_ENV, waveform 'sine'. -/
def initState (sr : ℚ) : SynthState :=
  resizeVoices { sr := sr, voices := [], baseEnvelope := DEFAULT_ENV, waveform := .sine } 16

/-- One sample tick of the render loop: every voice advanced by one
process() call. -/
def tickState (s : SynthState) : SynthState :=
  { s with voices := s.voices.map PolyVoice.processStep }

/-- An execution step: a control message arriving at the port, or one
sample tick of the render loop. -/
inductive Step where
  | msg (m : Msg)
  | tick
deriving DecidableEq

/-- Apply one step. -/
def stepRun (s : SynthState) : Step → SynthState
  | .msg m => applyMsg s m
  | .tick => tickState s

/-- Run a list of steps left to right. -/
def runTrace (s : SynthState) (tr : List Step) : SynthState :=
  tr.foldl stepRun s

/-- The per-sample mix: the sum of process() over every voice. -/
noncomputable def mixSum (voices : List PolyVoice) : ℝ :=
  (voices.map PolyVoice.processOut).sum

/-- One output sample of the render loop:
s = mix * gain * (1 / AVG_EXPECTED_SIMULTANEOUS_VOICES), written identically
to every output channel. -/
noncomputable def outSample (s : SynthState) (vol : ℚ) : ℝ :=
  mixSum s.voices * (vol : ℝ) * (1 / (AVG_EXPECTED_SIMULTANEOUS_VOICES : ℝ))

/-- The samples written for one block, given the per-sample volume values
(a-rate automation; a k-rate block is the constant list): sample i is
produced from the state after i ticks, and the state advances by one tick
per sample. -/
noncomputable def renderSamples (s : SynthState) : List ℚ → List ℝ
  | [] => []
  | vol :: rest => outSample s vol :: renderSamples (tickState s) rest

end XenSynth

namespace XenSynth

/-! ## Basic evaluation lemmas used throughout -/

theorem resizeVoices_length (s : SynthState) (n : ℕ) :
    (resizeVoices s n).voices.length = n := by
  unfold resizeVoices
  by_cases h : n = s.voices.length
  · simp [h]
  · by_cases h2 : s.voices.length < n
    · simp [h, h2, List.length_append, List.length_replicate]
      omega
    · simp [h, h2, releaseTail, List.length_take, List.length_append,
        List.length_map, List.length_drop]
      omega

theorem initState_eq (sr : ℚ) :
    initState sr = { sr := sr, voices := List.replicate 16 (mkPolyVoice sr),
                     baseEnvelope := DEFAULT_ENV, waveform := .sine } := by
  simp only [initState, resizeVoices, List.length_nil, releaseTail]
  norm_num [mkPolyVoice, List.map_replicate, PolyVoice.setWaveform]

/-! ## C8: the oscillator bank -/

/-- C8. The oscillator function sample(waveform, phase) is pure (it is a
function of its arguments alone), and on every phase in [0,1) each known
tag produces the spec formula: square is +1 below phase 0.5 and -1 above;
triangle is 1 − 4·|phase − 0.5|; sawtooth is 2·phase − 1; power n is
sign(sin 2πp)·|sin 2πp|^n for n = 2, 3, 4; selfmod k is
sin(2πp + k·2π·sin 2πp) for k = 0.1, 0.2, 0.3; and every tag outside the
known set resolves to the sine value sin(2πp) rather than failing. -/
theorem claim_C8 (p : ℝ) (h0 : 0 ≤ p) (h1 : p < 1) :
    oscSample .square p = (if p < 1/2 then 1 else -1)
    ∧ oscSample .triangle p = 1 - 4 * |p - 1/2|
    ∧ oscSample .sawtooth p = 2 * p - 1
    ∧ oscSample .power2 p =
        Real.sign (Real.sin (2 * Real.pi * p)) * |Real.sin (2 * Real.pi * p)| ^ (2 : ℕ)
    ∧ oscSample .power3 p =
        Real.sign (Real.sin (2 * Real.pi * p)) * |Real.sin (2 * Real.pi * p)| ^ (3 : ℕ)
    ∧ oscSample .power4 p =
        Real.sign (Real.sin (2 * Real.pi * p)) * |Real.sin (2 * Real.pi * p)| ^ (4 : ℕ)
    ∧ oscSample .selfmod01 p =
        Real.sin (2 * Real.pi * p + (1/10) * (2 * Real.pi) * Real.sin (2 * Real.pi * p))
    ∧ oscSample .selfmod02 p =
        Real.sin (2 * Real.pi * p + (2/10) * (2 * Real.pi) * Real.sin (2 * Real.pi * p))
    ∧ oscSample .selfmod03 p =
        Real.sin (2 * Real.pi * p + (3/10) * (2 * Real.pi) * Real.sin (2 * Real.pi * p))
    ∧ oscSample .sine p = Real.sin (2 * Real.pi * p)
    ∧ ∀ tag : String, oscSample (.other tag) p = Real.sin (2 * Real.pi * p) := by
  refine ⟨rfl, rfl, rfl, ?_, ?_, ?_, rfl, rfl, rfl, rfl, fun _ => rfl⟩ <;>
    simp [oscSample, powerSin, mul_comm]

/-- Witness for C8 at the concrete phase 0. -/
theorem claim_C8_witness :
    (0:ℝ) ≤ 0 ∧ (0:ℝ) < 1 ∧ oscSample .triangle 0 = 1 - 4 * |(0:ℝ) - 1/2| :=
  ⟨le_refl 0, by norm_num, (claim_C8 0 (le_refl 0) (by norm_num)).2.1⟩

/-! ## C10: setPolyphony never errors and clamps to at least one voice -/

/-- C10. For every rational argument q (0, negative and non-integer values
included; every finite IEEE number is such a rational), the setPolyphony
handler resizes the pool to max(1, ⌊q⌋) voices — in the model the handler is
a total function, mirroring the absence of any error path in the source —
so setPolyphony 0 yields a pool of size one, and the pool size after any
setPolyphony is at least one. -/
theorem claim_C10 (q : ℚ) (s : SynthState) :
    (applyMsg s (.setPolyphony q)).voices.length = Int.toNat (max 1 ⌊q⌋)
    ∧ 1 ≤ (applyMsg s (.setPolyphony q)).voices.length
    ∧ (applyMsg s (.setPolyphony 0)).voices.length = 1 := by
  refine ⟨resizeVoices_length s _, ?_, ?_⟩
  · rw [applyMsg, resizeVoices_length]
    omega
  · rw [applyMsg, resizeVoices_length]
    norm_num

end XenSynth

namespace XenSynth

/-! ## List and pool helper lemmas -/

theorem map_noteOff_eq_self (id : ℚ) (l : List PolyVoice)
    (h : ∀ v ∈ l, v.noteId = id → v.state = .idle ∨ v.state = .release) :
    l.map (fun v => v.noteOff id) = l := by
  induction l with
  | nil => rfl
  | cons v vs ih =>
    simp only [List.map_cons]
    have hv : v.noteOff id = v := by
      by_cases hid : v.noteId = id
      · rcases h v (List.mem_cons_self _ _) hid with h1 | h1 <;>
          simp [PolyVoice.noteOff, h1]
      · simp [PolyVoice.noteOff, hid]
    rw [hv, ih (fun u hu => h u (List.mem_cons_of_mem _ hu))]

theorem firstIdle_eq_none (l : List PolyVoice) :
    firstIdle l = none ↔ ∀ v ∈ l, v.state ≠ .idle := by
  induction l with
  | nil => simp [firstIdle]
  | cons v vs ih =>
    by_cases h : v.state = .idle <;>
      simp [firstIdle, h, ih, Option.map_eq_none']

theorem firstIdle_target (l : List PolyVoice) :
    ∀ i, firstIdle l = some i → ∃ v, l[i]? = some v ∧ v.state = .idle := by
  induction l with
  | nil => intro i h; simp [firstIdle] at h
  | cons v vs ih =>
    intro i h
    by_cases hv : v.state = .idle
    · simp only [firstIdle, if_pos hv, Option.some.injEq] at h
      subst h
      exact ⟨v, by simp, hv⟩
    · simp only [firstIdle, if_neg hv, Option.map_eq_some'] at h
      rcases h with ⟨i', hi', rfl⟩
      rcases ih i' hi' with ⟨u, hu, hust⟩
      exact ⟨u, by simpa using hu, hust⟩

theorem firstIdle_min (l : List PolyVoice) :
    ∀ i, firstIdle l = some i →
      ∀ j, j < i → ∀ v, l[j]? = some v → v.state ≠ .idle := by
  induction l with
  | nil => intro i h; simp [firstIdle] at h
  | cons v vs ih =>
    intro i h j hj u hu
    by_cases hv : v.state = .idle
    · simp only [firstIdle, if_pos hv, Option.some.injEq] at h
      omega
    · simp only [firstIdle, if_neg hv, Option.map_eq_some'] at h
      rcases h with ⟨i', hi', rfl⟩
      cases j with
      | zero =>
        simp only [List.getElem?_cons_zero, Option.some.injEq] at hu
        subst hu; exact hv
      | succ j =>
        simp only [List.getElem?_cons_succ] at hu
        exact ih i' hi' j (by omega) u hu

theorem findFreeOrSteal_no_idle (l : List PolyVoice)
    (h : ∀ v ∈ l, v.state ≠ .idle) : findFreeOrSteal l = 0 := by
  simp [findFreeOrSteal, (firstIdle_eq_none l).mpr h]

theorem firstIdle_some_of_exists (l : List PolyVoice)
    (h : ∃ v ∈ l, v.state = .idle) : ∃ i, firstIdle l = some i := by
  cases hfi : firstIdle l with
  | none =>
    rcases h with ⟨v, hv, hst⟩
    exact absurd hst ((firstIdle_eq_none l).mp hfi v hv)
  | some i => exact ⟨i, rfl⟩

theorem getElem?_updateAt (f : PolyVoice → PolyVoice) (i j : ℕ) (l : List PolyVoice) :
    (updateAt f i l)[j]? = if j = i then (l[j]?).map f else l[j]? := by
  induction l generalizing i j with
  | nil => simp [updateAt]
  | cons v vs ih =>
    cases i with
    | zero =>
      cases j with
      | zero => simp [updateAt]
      | succ j => simp [updateAt]
    | succ i =>
      cases j with
      | zero => simp [updateAt]
      | succ j => simpa [updateAt] using ih i j

theorem length_updateAt (f : PolyVoice → PolyVoice) (i : ℕ) (l : List PolyVoice) :
    (updateAt f i l).length = l.length := by
  induction l generalizing i with
  | nil => cases i <;> rfl
  | cons v vs ih =>
    cases i with
    | zero => simp [updateAt]
    | succ i => simp [updateAt, ih]

theorem mem_updateAt (f : PolyVoice → PolyVoice) (i : ℕ) (l : List PolyVoice) :
    ∀ v ∈ updateAt f i l, v ∈ l ∨ ∃ u ∈ l, v = f u := by
  induction l generalizing i with
  | nil => intro v hv; simp [updateAt] at hv
  | cons w ws ih =>
    intro v hv
    cases i with
    | zero =>
      rcases List.mem_cons.mp hv with rfl | hv2
      · exact Or.inr ⟨w, List.mem_cons_self _ _, rfl⟩
      · exact Or.inl (List.mem_cons_of_mem _ hv2)
    | succ i =>
      rcases List.mem_cons.mp hv with rfl | hv2
      · exact Or.inl (List.mem_cons_self _ _)
      · rcases ih i v hv2 with h | ⟨u, hu, rfl⟩
        · exact Or.inl (List.mem_cons_of_mem _ h)
        · exact Or.inr ⟨u, List.mem_cons_of_mem _ hu, rfl⟩

/-! ## C7: noteOff only releases the owning sounding voice; otherwise no-op -/

/-- C7. PolyVoice.noteOff(id) moves a voice into Release exactly when the
voice owns id and is in Attack, Decay or Sustain; in every other situation
the voice is left entirely unchanged, and consequently a noteOff message
whose id is owned by no non-idle voice (or only by voices already in
Release) leaves the whole pool state unchanged. -/
theorem claim_C7 (id : ℚ) (s : SynthState) :
    (∀ v : PolyVoice,
        (((v.noteOff id).state = .release ∧ v.state ≠ .release) ↔
          (v.noteId = id ∧ (v.state = .attack ∨ v.state = .decay ∨ v.state = .sustain)))
        ∧ (¬(v.noteId = id ∧ (v.state = .attack ∨ v.state = .decay ∨ v.state = .sustain)) →
            v.noteOff id = v))
    ∧ ((∀ v ∈ s.voices, v.noteId = id → v.state = .idle ∨ v.state = .release) →
        applyMsg s (.noteOff id) = s) := by
  constructor
  · intro v
    rcases v with ⟨vsr, vfreq, vsamples, vst, venv, va, vd, vr, vsus, vnid, vwf⟩
    cases vst <;> by_cases hid : vnid = id <;>
      simp_all [PolyVoice.noteOff]
  · intro h
    rcases s with ⟨ssr, svo, sbase, swf⟩
    simp only [applyMsg]
    rw [map_noteOff_eq_self id svo h]

/-- Witness for C7: a pool whose only voice owns note 5 and is in Sustain
is unchanged by noteOff 3. -/
theorem claim_C7_witness :
    applyMsg
      { sr := 44100,
        voices := [{ sr := 44100, state := .sustain, noteId := 5, sustainLevel := 7/10,
                     attackSamples := 441, decaySamples := 4410, releaseSamples := 22050 }],
        baseEnvelope := DEFAULT_ENV, waveform := .sine } (.noteOff 3) =
      { sr := 44100,
        voices := [{ sr := 44100, state := .sustain, noteId := 5, sustainLevel := 7/10,
                     attackSamples := 441, decaySamples := 4410, releaseSamples := 22050 }],
        baseEnvelope := DEFAULT_ENV, waveform := .sine } :=
  (claim_C7 3 _).2 (by
    intro v hv hid
    simp only [List.mem_singleton] at hv
    subst hv
    norm_num at hid)

end XenSynth

namespace XenSynth

/-! ## Concrete arithmetic evaluation lemmas (all exact over ℚ) -/

theorem sts_attack_default : secondsToSamples (1/100) 44100 = 441 := by
  norm_num [secondsToSamples]
  all_goals decide

theorem sts_decay_default : secondsToSamples (1/10) 44100 = 4410 := by
  norm_num [secondsToSamples]
  all_goals decide

theorem sts_release_default : secondsToSamples (1/2) 44100 = 22050 := by
  norm_num [secondsToSamples]
  all_goals decide

theorem sts_zero (sr : ℚ) : secondsToSamples 0 sr = 1 := by
  simp [secondsToSamples]

theorem clamp_default : clamp (7/10) 0 1 = 7/10 := by
  norm_num [clamp]

theorem clamp_one : clamp 1 0 1 = 1 := by
  norm_num [clamp]

theorem poly_toNat_one : Int.toNat (max 1 ⌊(1:ℚ)⌋) = 1 := by
  norm_num
  all_goals decide

theorem poly_toNat_two : Int.toNat (max 1 ⌊(2:ℚ)⌋) = 2 := by
  norm_num
  all_goals decide

theorem poly_toNat_four : Int.toNat (max 1 ⌊(4:ℚ)⌋) = 4 := by
  norm_num
  all_goals decide

theorem poly_toNat_seven : Int.toNat (max 1 ⌊(7:ℚ)⌋) = 7 := by
  norm_num
  all_goals decide

theorem mergedNoteOnEnvelope_none (b : Envelope) : mergedNoteOnEnvelope b none = b := rfl

/-- The voice produced by noteOn with the default envelope at sample rate
44100 (attackSamples 441, decaySamples 4410, releaseSamples 22050,
sustainLevel 0.7). -/
def attackVoice (freq id : ℚ) : PolyVoice :=
  { sr := 44100, freq := freq, samples := 0, state := .attack, envSamples := 0,
    attackSamples := 441, decaySamples := 4410, releaseSamples := 22050,
    sustainLevel := 7/10, noteId := id, waveform := .sine }

theorem noteOn_default_eval (v : PolyVoice) (hsr : v.sr = 44100) (freq id : ℚ) :
    (v.setWaveform .sine).noteOn freq id DEFAULT_ENV = attackVoice freq id := by
  simp [PolyVoice.setWaveform, PolyVoice.noteOn, attackVoice, DEFAULT_ENV, hsr,
    clamp_default]
  norm_num [secondsToSamples]
  all_goals decide

theorem attackVoice_state (freq id : ℚ) : (attackVoice freq id).state = .attack := rfl

theorem attackVoice_sr (freq id : ℚ) : (attackVoice freq id).sr = 44100 := rfl

/-- Number of non-idle voices in the pool. -/
def nonIdleCount (s : SynthState) : ℕ :=
  (s.voices.filter (fun v => decide (v.state ≠ VoiceState.idle))).length

/-! ## C5: allocation and voice stealing -/

/-- The C5 scenario: polyphony 2, then three overlapping noteOn calls. -/
def c5s0 : SynthState := initState 44100

def c5s1 : SynthState := applyMsg c5s0 (.setPolyphony 2)

def c5s2 : SynthState := applyMsg c5s1 (.noteOn 1 440 none)

def c5s3 : SynthState := applyMsg c5s2 (.noteOn 2 550 none)

def c5s4 : SynthState := applyMsg c5s3 (.noteOn 3 660 none)

theorem c5s1_eq :
    c5s1 = { sr := 44100, voices := [mkPolyVoice 44100, mkPolyVoice 44100],
             baseEnvelope := DEFAULT_ENV, waveform := .sine } := by
  rw [c5s1, c5s0, initState_eq]
  simp only [applyMsg, poly_toNat_two, resizeVoices]
  norm_num [releaseTail, mkPolyVoice, PolyVoice.setWaveform, List.take_replicate,
    List.take_append, List.map_replicate, List.take_take, List.replicate_succ,
    List.replicate_zero]

theorem c5s2_eq :
    c5s2 = { sr := 44100, voices := [attackVoice 440 1, mkPolyVoice 44100],
             baseEnvelope := DEFAULT_ENV, waveform := .sine } := by
  rw [c5s2, c5s1_eq]
  simp only [applyMsg, mergedNoteOnEnvelope_none, findFreeOrSteal, firstIdle, mkPolyVoice]
  norm_num [updateAt, noteOn_default_eval, mkPolyVoice]

theorem c5s3_eq :
    c5s3 = { sr := 44100, voices := [attackVoice 440 1, attackVoice 550 2],
             baseEnvelope := DEFAULT_ENV, waveform := .sine } := by
  rw [c5s3, c5s2_eq]
  simp [applyMsg, mergedNoteOnEnvelope_none, findFreeOrSteal, firstIdle,
    attackVoice_state, attackVoice_sr, mkPolyVoice, updateAt, noteOn_default_eval]

theorem c5s4_eq :
    c5s4 = { sr := 44100, voices := [attackVoice 660 3, attackVoice 550 2],
             baseEnvelope := DEFAULT_ENV, waveform := .sine } := by
  rw [c5s4, c5s3_eq]
  simp [applyMsg, mergedNoteOnEnvelope_none, findFreeOrSteal, firstIdle,
    attackVoice_state, attackVoice_sr, updateAt, noteOn_default_eval]

/-- C5. findFreeOrSteal returns the lowest idle index when an idle voice
exists and otherwise index 0 regardless of that voice's state; with
polyphony 2, the third of three overlapping noteOn calls therefore reuses
voice index 0 (the model is total, mirroring the absence of any throwing
path), and no prefix of the scenario ever has more than 2 non-idle
voices. -/
theorem claim_C5 :
    (∀ pool : List PolyVoice,
        ((∃ v ∈ pool, v.state = .idle) →
          (∃ v, pool[findFreeOrSteal pool]? = some v ∧ v.state = .idle) ∧
            ∀ j, j < findFreeOrSteal pool → ∀ v, pool[j]? = some v → v.state ≠ .idle)
        ∧ ((∀ v ∈ pool, v.state ≠ .idle) → findFreeOrSteal pool = 0))
    ∧ findFreeOrSteal c5s3.voices = 0
    ∧ c5s4.voices.length = 2
    ∧ c5s4.voices.map PolyVoice.noteId = [3, 2]
    ∧ (c5s4.voices[0]?).map PolyVoice.state = some .attack
    ∧ nonIdleCount c5s0 ≤ 2 ∧ nonIdleCount c5s1 ≤ 2 ∧ nonIdleCount c5s2 ≤ 2
    ∧ nonIdleCount c5s3 ≤ 2 ∧ nonIdleCount c5s4 ≤ 2 := by
  refine ⟨?_, ?_, ?_, ?_, ?_, ?_, ?_, ?_, ?_, ?_⟩
  · intro pool
    constructor
    · intro hex
      rcases firstIdle_some_of_exists pool hex with ⟨i, hi⟩
      have hffs : findFreeOrSteal pool = i := by simp [findFreeOrSteal, hi]
      rw [hffs]
      exact ⟨firstIdle_target pool i hi, firstIdle_min pool i hi⟩
    · exact findFreeOrSteal_no_idle pool
  · rw [c5s3_eq]
    simp [findFreeOrSteal, firstIdle, attackVoice]
  · rw [c5s4_eq]; rfl
  · rw [c5s4_eq]; simp [attackVoice]
  · rw [c5s4_eq]; simp [attackVoice]
  · rw [c5s0, initState_eq]
    simp [nonIdleCount, mkPolyVoice, List.filter_replicate]
  · rw [c5s1_eq]; simp [nonIdleCount, mkPolyVoice]
  · rw [c5s2_eq]; simp [nonIdleCount, mkPolyVoice, attackVoice, List.length_filter_le]
  · rw [c5s3_eq]; simp [nonIdleCount, attackVoice, List.length_filter_le]
  · rw [c5s4_eq]; simp [nonIdleCount, attackVoice, List.length_filter_le]

/-- Witness for C5: a pool with no idle voice makes findFreeOrSteal return
index 0. -/
theorem claim_C5_witness : findFreeOrSteal [attackVoice 440 1] = 0 :=
  (claim_C5.1 [attackVoice 440 1]).2 (by
    intro v hv
    simp only [List.mem_singleton] at hv
    subst hv
    simp [attackVoice])

end XenSynth

namespace XenSynth

/-! ## C3: the idle-iff-unowned invariant -/

/-- The per-voice invariant: a voice is Idle exactly when it owns no note. -/
def IdleInv (v : PolyVoice) : Prop := v.state = .idle ↔ v.noteId = 0

/-- A step is well-formed when any noteOn it carries has a positive id. -/
def goodStep : Step → Prop
  | .msg (.noteOn id _ _) => 0 < id
  | _ => True

instance (e : Step) : Decidable (goodStep e) := by
  unfold goodStep
  rcases e with m | _
  · rcases m <;> exact inferInstance
  · exact inferInstance

theorem idleInv_mk (sr : ℚ) : IdleInv (mkPolyVoice sr) := by
  simp [IdleInv, mkPolyVoice]

theorem idleInv_noteOn (v : PolyVoice) (freq id : ℚ) (env : Envelope) (hid : id ≠ 0) :
    IdleInv (v.noteOn freq id env) := by
  simp [IdleInv, PolyVoice.noteOn, hid]

theorem idleInv_noteOff (v : PolyVoice) (id : ℚ) (h : IdleInv v) :
    IdleInv (v.noteOff id) := by
  rcases v with ⟨vsr, vfreq, vsamples, vst, venv, va, vd, vr, vsus, vnid, vwf⟩
  simp only [IdleInv] at h ⊢
  unfold PolyVoice.noteOff
  split <;> simp_all

theorem idleInv_forceRelease (v : PolyVoice) (h : IdleInv v) :
    IdleInv v.forceRelease := by
  rcases v with ⟨vsr, vfreq, vsamples, vst, venv, va, vd, vr, vsus, vnid, vwf⟩
  simp only [IdleInv] at h ⊢
  unfold PolyVoice.forceRelease
  split <;> simp_all

theorem idleInv_setWaveform (v : PolyVoice) (w : Waveform) (h : IdleInv v) :
    IdleInv (v.setWaveform w) := h

theorem idleInv_processStep (v : PolyVoice) (h : IdleInv v) :
    IdleInv v.processStep := by
  rcases v with ⟨vsr, vfreq, vsamples, vst, venv, va, vd, vr, vsus, vnid, vwf⟩
  simp only [IdleInv] at h ⊢
  cases vst <;> simp_all [PolyVoice.processStep] <;> split <;> simp_all

/-- The pool invariant. -/
def InvPool (s : SynthState) : Prop := ∀ v ∈ s.voices, IdleInv v

theorem invPool_step (s : SynthState) (e : Step) (hg : goodStep e) (h : InvPool s) :
    InvPool (stepRun s e) := by
  cases e with
  | tick =>
    intro v hv
    rcases List.mem_map.mp hv with ⟨u, hu, rfl⟩
    exact idleInv_processStep u (h u hu)
  | msg m =>
    cases m with
    | noteOn id freq envOv =>
      intro v hv
      rcases mem_updateAt _ _ _ v hv with hmem | ⟨u, hu, rfl⟩
      · exact h v hmem
      · exact idleInv_noteOn _ freq id _ (ne_of_gt hg)
    | noteOff id =>
      intro v hv
      rcases List.mem_map.mp hv with ⟨u, hu, rfl⟩
      exact idleInv_noteOff u id (h u hu)
    | waveform w =>
      intro v hv
      rcases List.mem_map.mp hv with ⟨u, hu, rfl⟩
      exact idleInv_setWaveform u w (h u hu)
    | setEnvelope e => exact h
    | allNotesOff =>
      intro v hv
      rcases List.mem_map.mp hv with ⟨u, hu, rfl⟩
      exact idleInv_forceRelease u (h u hu)
    | setPolyphony q =>
      intro v hv
      simp only [stepRun, applyMsg, resizeVoices] at hv
      split at hv
      · exact h v hv
      · split at hv
        · rcases List.mem_map.mp hv with ⟨u, hu, rfl⟩
          rcases List.mem_append.mp hu with hu2 | hu2
          · exact idleInv_setWaveform _ _ (h u hu2)
          · have : u = mkPolyVoice s.sr := List.eq_of_mem_replicate hu2
            subst this
            exact idleInv_setWaveform _ _ (idleInv_mk s.sr)
        · rcases List.mem_map.mp hv with ⟨u, hu, rfl⟩
          have hu2 : u ∈ releaseTail (Int.toNat (max 1 ⌊q⌋)) s.voices :=
            List.take_subset _ _ hu
          rcases List.mem_append.mp hu2 with hu3 | hu3
          · exact idleInv_setWaveform _ _ (h u (List.take_subset _ _ hu3))
          · rcases List.mem_map.mp hu3 with ⟨w, hw, rfl⟩
            exact idleInv_setWaveform _ _
              (idleInv_forceRelease w (h w (List.drop_subset _ _ hw)))

theorem invPool_runTrace (s : SynthState) (tr : List Step)
    (hg : ∀ e ∈ tr, goodStep e) (h : InvPool s) : InvPool (runTrace s tr) := by
  induction tr generalizing s with
  | nil => exact h
  | cons e tr ih =>
    exact ih (stepRun s e) (fun x hx => hg x (List.mem_cons_of_mem _ hx))
      (invPool_step s e (hg e (List.mem_cons_self _ _)) h)

theorem invPool_init (sr : ℚ) : InvPool (initState sr) := by
  rw [initState_eq]
  intro v hv
  have : v = mkPolyVoice sr := List.eq_of_mem_replicate hv
  subst this
  exact idleInv_mk sr

theorem processStep_enters_idle (v : PolyVoice) (hni : v.state ≠ .idle)
    (hi : v.processStep.state = .idle) :
    v.state = .release ∧ v.releaseSamples ≤ v.envSamples ∧ v.processStep.noteId = 0 := by
  rcases v with ⟨vsr, vfreq, vsamples, vst, venv, va, vd, vr, vsus, vnid, vwf⟩
  cases vst <;> simp_all [PolyVoice.processStep] <;> split at hi <;> simp_all

end XenSynth

namespace XenSynth

theorem getElem?_lt_length {l : List PolyVoice} {i : ℕ} {v : PolyVoice}
    (h : l[i]? = some v) : i < l.length := by
  by_contra hc
  rw [List.getElem?_eq_none (le_of_not_lt hc)] at h
  exact Option.noConfusion h

theorem step_enters_idle (s : SynthState) (e : Step) (i : ℕ) (v v' : PolyVoice)
    (hv : s.voices[i]? = some v) (hv' : (stepRun s e).voices[i]? = some v')
    (hni : v.state ≠ .idle) (hi' : v'.state = .idle) :
    e = .tick ∧ v.state = .release ∧ v.releaseSamples ≤ v.envSamples ∧ v'.noteId = 0 := by
  cases e with
  | tick =>
    simp only [stepRun, tickState, List.getElem?_map, hv, Option.map_some',
      Option.some.injEq] at hv'
    subst hv'
    rcases processStep_enters_idle v hni hi' with ⟨h1, h2, h3⟩
    exact ⟨rfl, h1, h2, h3⟩
  | msg m =>
    exfalso
    cases m with
    | noteOn id freq envOv =>
      simp only [stepRun, applyMsg, getElem?_updateAt, hv] at hv'
      rcases ite_eq_iff.mp hv' with ⟨-, heq⟩ | ⟨-, heq⟩
      · simp only [Option.map_some', Option.some.injEq] at heq
        subst heq
        simp [PolyVoice.noteOn, PolyVoice.setWaveform] at hi'
      · cases heq
        exact hni hi'
    | noteOff id =>
      simp only [stepRun, applyMsg, List.getElem?_map, hv, Option.map_some',
        Option.some.injEq] at hv'
      subst hv'
      unfold PolyVoice.noteOff at hi'
      split at hi' <;> simp_all
    | waveform w =>
      simp only [stepRun, applyMsg, List.getElem?_map, hv, Option.map_some',
        Option.some.injEq] at hv'
      subst hv'
      exact hni hi'
    | setEnvelope e =>
      simp only [stepRun, applyMsg] at hv'
      rw [hv] at hv'
      cases hv'
      exact hni hi'
    | allNotesOff =>
      simp only [stepRun, applyMsg, List.getElem?_map, hv, Option.map_some',
        Option.some.injEq] at hv'
      subst hv'
      unfold PolyVoice.forceRelease at hi'
      split at hi' <;> simp_all
    | setPolyphony q =>
      have hlen : i < s.voices.length := getElem?_lt_length hv
      simp only [stepRun, applyMsg, resizeVoices, releaseTail] at hv'
      split at hv'
      · rw [hv] at hv'
        cases hv'
        exact hni hi'
      · split at hv'
        · rw [List.getElem?_map, List.getElem?_append, if_pos hlen, hv] at hv'
          simp only [Option.map_some', Option.some.injEq] at hv'
          subst hv'
          exact hni hi'
        · rw [List.getElem?_map, List.getElem?_take] at hv'
          by_cases hin : i < Int.toNat (max 1 ⌊q⌋)
          · have htk : i < (List.take (Int.toNat (max 1 ⌊q⌋)) s.voices).length := by
              simp only [List.length_take]
              omega
            rw [if_pos hin, List.getElem?_append, if_pos htk, List.getElem?_take,
              if_pos hin, hv] at hv'
            simp only [Option.map_some', Option.some.injEq] at hv'
            subst hv'
            exact hni hi'
          · rw [if_neg hin] at hv'
            exact Option.noConfusion hv'

/-- C3. For every message/tick trace from the initial processor state in
which every noteOn carries a positive note id, every voice of the pool is
Idle exactly when its ownerNoteId is 0; moreover (for arbitrary states) a
voice can move from a non-Idle state to Idle only during a render tick,
only out of Release with its stage counter having reached releaseSamples,
and the transition resets ownerNoteId to 0. -/
theorem claim_C3 :
    (∀ (sr : ℚ) (tr : List Step), (∀ e ∈ tr, goodStep e) →
        ∀ v ∈ (runTrace (initState sr) tr).voices, (v.state = .idle ↔ v.noteId = 0))
    ∧ (∀ (s : SynthState) (e : Step) (i : ℕ) (v v' : PolyVoice),
        s.voices[i]? = some v → (stepRun s e).voices[i]? = some v' →
        v.state ≠ .idle → v'.state = .idle →
        e = .tick ∧ v.state = .release ∧ v.releaseSamples ≤ v.envSamples ∧ v'.noteId = 0) :=
  ⟨fun sr tr hg => invPool_runTrace (initState sr) tr hg (invPool_init sr),
   step_enters_idle⟩

/-- Witness for C3: after a trace consisting of one noteOn with id 5, the
claimed invariant holds at the voice that took the note (it is non-idle and
owns 5 ≠ 0). -/
theorem claim_C3_witness :
    (attackVoice 440 5).state = .idle ↔ (attackVoice 440 5).noteId = 0 := by
  have hmem : attackVoice 440 5 ∈
      (runTrace (initState 44100) [.msg (.noteOn 5 440 none)]).voices := by
    simp [runTrace, stepRun, initState_eq, applyMsg, mergedNoteOnEnvelope_none,
      findFreeOrSteal, firstIdle, mkPolyVoice, List.replicate_succ, updateAt,
      noteOn_default_eval]
  exact claim_C3.1 44100 [.msg (.noteOn 5 440 none)]
    (by
      intro e he
      simp only [List.mem_singleton] at he
      subst he
      simp only [goodStep]
      norm_num)
    (attackVoice 440 5) hmem

end XenSynth

namespace XenSynth

/-! ## C2: envelope timing for the spec's reference configuration -/

theorem processStep_attack_step (v : PolyVoice) (hst : v.state = .attack)
    (hlt : v.envSamples < v.attackSamples) :
    v.processStep = { v with envSamples := v.envSamples + 1, samples := v.samples + 1 } := by
  rcases v with ⟨vsr, vfreq, vsamples, vst, venv, va, vd, vr, vsus, vnid, vwf⟩
  replace hst : vst = VoiceState.attack := hst
  subst hst
  simp_all [PolyVoice.processStep, Nat.not_le.mpr hlt]

theorem processStep_attack_done (v : PolyVoice) (hst : v.state = .attack)
    (hge : v.attackSamples ≤ v.envSamples) :
    v.processStep = { v with state := .decay, envSamples := 0, samples := v.samples + 1 } := by
  rcases v with ⟨vsr, vfreq, vsamples, vst, venv, va, vd, vr, vsus, vnid, vwf⟩
  replace hst : vst = VoiceState.attack := hst
  subst hst
  simp_all [PolyVoice.processStep]

theorem processStep_decay_step (v : PolyVoice) (hst : v.state = .decay)
    (hlt : v.envSamples < v.decaySamples) :
    v.processStep = { v with envSamples := v.envSamples + 1, samples := v.samples + 1 } := by
  rcases v with ⟨vsr, vfreq, vsamples, vst, venv, va, vd, vr, vsus, vnid, vwf⟩
  replace hst : vst = VoiceState.decay := hst
  subst hst
  simp_all [PolyVoice.processStep, Nat.not_le.mpr hlt]

theorem processStep_decay_done (v : PolyVoice) (hst : v.state = .decay)
    (hge : v.decaySamples ≤ v.envSamples) :
    v.processStep = { v with state := .sustain, envSamples := 0, samples := v.samples + 1 } := by
  rcases v with ⟨vsr, vfreq, vsamples, vst, venv, va, vd, vr, vsus, vnid, vwf⟩
  replace hst : vst = VoiceState.decay := hst
  subst hst
  simp_all [PolyVoice.processStep]

theorem processStep_sustain (v : PolyVoice) (hst : v.state = .sustain) :
    v.processStep = { v with samples := v.samples + 1 } := by
  rcases v with ⟨vsr, vfreq, vsamples, vst, venv, va, vd, vr, vsus, vnid, vwf⟩
  replace hst : vst = VoiceState.sustain := hst
  subst hst
  simp_all [PolyVoice.processStep]

theorem processStep_release_step (v : PolyVoice) (hst : v.state = .release)
    (hlt : v.envSamples < v.releaseSamples) :
    v.processStep = { v with envSamples := v.envSamples + 1, samples := v.samples + 1 } := by
  rcases v with ⟨vsr, vfreq, vsamples, vst, venv, va, vd, vr, vsus, vnid, vwf⟩
  replace hst : vst = VoiceState.release := hst
  subst hst
  simp_all [PolyVoice.processStep, Nat.not_le.mpr hlt]

theorem processStep_release_done (v : PolyVoice) (hst : v.state = .release)
    (hge : v.releaseSamples ≤ v.envSamples) :
    v.processStep = { v with state := .idle, envSamples := 0, noteId := 0 } := by
  rcases v with ⟨vsr, vfreq, vsamples, vst, venv, va, vd, vr, vsus, vnid, vwf⟩
  replace hst : vst = VoiceState.release := hst
  subst hst
  simp_all [PolyVoice.processStep]

theorem run_attack (k : ℕ) (v : PolyVoice) (hst : v.state = .attack)
    (hk : v.envSamples + k ≤ v.attackSamples) :
    PolyVoice.processStep^[k] v =
      { v with envSamples := v.envSamples + k, samples := v.samples + k } := by
  induction k generalizing v with
  | zero => simp
  | succ k ih =>
    rw [Function.iterate_succ_apply', ih v hst (by omega)]
    rw [processStep_attack_step _ (by simpa using hst) (by simp; omega)]
    simp only [PolyVoice.mk.injEq, eq_self_iff_true, true_and, and_true]
    omega

theorem run_decay (k : ℕ) (v : PolyVoice) (hst : v.state = .decay)
    (hk : v.envSamples + k ≤ v.decaySamples) :
    PolyVoice.processStep^[k] v =
      { v with envSamples := v.envSamples + k, samples := v.samples + k } := by
  induction k generalizing v with
  | zero => simp
  | succ k ih =>
    rw [Function.iterate_succ_apply', ih v hst (by omega)]
    rw [processStep_decay_step _ (by simpa using hst) (by simp; omega)]
    simp only [PolyVoice.mk.injEq, eq_self_iff_true, true_and, and_true]
    omega

theorem run_sustain (k : ℕ) (v : PolyVoice) (hst : v.state = .sustain) :
    PolyVoice.processStep^[k] v = { v with samples := v.samples + k } := by
  induction k generalizing v with
  | zero => simp
  | succ k ih =>
    rw [Function.iterate_succ_apply', ih v hst]
    rw [processStep_sustain _ (by simpa using hst)]
    simp only [PolyVoice.mk.injEq, eq_self_iff_true, true_and, and_true]
    omega

theorem run_release (k : ℕ) (v : PolyVoice) (hst : v.state = .release)
    (hk : v.envSamples + k ≤ v.releaseSamples) :
    PolyVoice.processStep^[k] v =
      { v with envSamples := v.envSamples + k, samples := v.samples + k } := by
  induction k generalizing v with
  | zero => simp
  | succ k ih =>
    rw [Function.iterate_succ_apply', ih v hst (by omega)]
    rw [processStep_release_step _ (by simpa using hst) (by simp; omega)]
    simp only [PolyVoice.mk.injEq, eq_self_iff_true, true_and, and_true]
    omega

end XenSynth

namespace XenSynth

/-- The C2 voice: noteOn with the spec's reference envelope
(attack 0.01s, decay 0.1s, sustain 0.7, release 0.5s) at sampleRate 44100. -/
def c2v0 : PolyVoice := (mkPolyVoice 44100).noteOn 440 7 DEFAULT_ENV

/-- The C2 voice at the moment noteOff(7) is applied (during Sustain, after
5000 process() calls). -/
def c2vR : PolyVoice := (PolyVoice.processStep^[5000] c2v0).noteOff 7

theorem c2v0_eq : c2v0 = attackVoice 440 7 := by
  have h := noteOn_default_eval (mkPolyVoice 44100) rfl 440 7
  simpa [c2v0, PolyVoice.setWaveform, mkPolyVoice] using h

theorem c2_441 : PolyVoice.processStep^[441] c2v0 =
    { attackVoice 440 7 with envSamples := 441, samples := 441 } := by
  rw [c2v0_eq]
  rw [run_attack 441 (attackVoice 440 7) rfl (by decide)]
  all_goals simp [attackVoice]

theorem c2_442 : PolyVoice.processStep^[442] c2v0 =
    { attackVoice 440 7 with state := .decay, envSamples := 0, samples := 442 } := by
  rw [show (442:ℕ) = 1 + 441 from by norm_num, Function.iterate_add_apply,
    c2_441, Function.iterate_one]
  rw [processStep_attack_done _ rfl (by decide)]
  all_goals simp [attackVoice]

theorem c2_4852 : PolyVoice.processStep^[4852] c2v0 =
    { attackVoice 440 7 with state := .decay, envSamples := 4410, samples := 4852 } := by
  rw [show (4852:ℕ) = 4410 + 442 from by norm_num, Function.iterate_add_apply,
    c2_442]
  rw [run_decay 4410 _ rfl (by decide)]
  all_goals simp [attackVoice]

theorem c2_4853 : PolyVoice.processStep^[4853] c2v0 =
    { attackVoice 440 7 with state := .sustain, envSamples := 0, samples := 4853 } := by
  rw [show (4853:ℕ) = 1 + 4852 from by norm_num, Function.iterate_add_apply,
    c2_4852, Function.iterate_one]
  rw [processStep_decay_done _ rfl (by decide)]
  all_goals simp [attackVoice]

theorem c2_5000 : PolyVoice.processStep^[5000] c2v0 =
    { attackVoice 440 7 with state := .sustain, envSamples := 0, samples := 5000 } := by
  rw [show (5000:ℕ) = 147 + 4853 from by norm_num, Function.iterate_add_apply,
    c2_4853]
  rw [run_sustain 147 _ rfl]
  all_goals simp [attackVoice]

theorem c2vR_eq : c2vR =
    { attackVoice 440 7 with state := .release, envSamples := 0, samples := 5000 } := by
  rw [c2vR, c2_5000]
  unfold PolyVoice.noteOff
  rw [if_pos ⟨by decide, rfl, by decide⟩]
  all_goals simp [attackVoice]

theorem c2_release_run (k : ℕ) (hk : k ≤ 22050) :
    PolyVoice.processStep^[k] c2vR =
      { attackVoice 440 7 with state := .release, envSamples := k, samples := 5000 + k } := by
  rw [c2vR_eq, run_release k _ rfl (by simp [attackVoice]; omega)]
  all_goals simp [attackVoice]

/-- C2. For the voice driven with attack=0.01s, decay=0.1s, sustain=0.7,
release=0.5s at sampleRate 44100: the derived stage lengths are 441, 4410
and 22050 samples; indexing the process() calls after noteOn from 0, the
voice is still in Attack after 441 calls and in Decay after 442 (so the
attack→decay transition happens during call index 441 = attackSamples,
within the claimed 441 ± 1), is in Decay after 4852 calls and in Sustain
after 4853 (the transition call index 4852 is within 1 of the claimed
~4851); and after noteOff is applied in Sustain, the voice stays in
Release for every call index below releaseSamples = 22050, while the call
with index exactly 22050 is the completing call: it returns 0, and
afterwards the voice is Idle with the stage counter reset and ownerNoteId
cleared to 0. -/
theorem claim_C2 :
    (c2v0.attackSamples = 441 ∧ c2v0.decaySamples = 4410 ∧ c2v0.releaseSamples = 22050)
    ∧ ((PolyVoice.processStep^[441] c2v0).state = .attack
        ∧ (PolyVoice.processStep^[442] c2v0).state = .decay)
    ∧ ((PolyVoice.processStep^[4852] c2v0).state = .decay
        ∧ (PolyVoice.processStep^[4853] c2v0).state = .sustain)
    ∧ c2vR.state = .release
    ∧ (∀ k, k < 22050 → (PolyVoice.processStep^[k] c2vR).state = .release)
    ∧ PolyVoice.processOut (PolyVoice.processStep^[22050] c2vR) = 0
    ∧ (PolyVoice.processStep^[22051] c2vR).state = .idle
    ∧ (PolyVoice.processStep^[22051] c2vR).envSamples = 0
    ∧ (PolyVoice.processStep^[22051] c2vR).noteId = 0 := by
  have h22051 : PolyVoice.processStep^[22051] c2vR =
      { attackVoice 440 7 with
        state := .idle
        envSamples := 0
        noteId := 0
        samples := 27050 } := by
    rw [show (22051:ℕ) = 1 + 22050 from by norm_num, Function.iterate_add_apply,
      c2_release_run 22050 (by norm_num), Function.iterate_one]
    rw [processStep_release_done _ rfl (by decide)]
    all_goals simp [attackVoice]
  refine ⟨⟨by rw [c2v0_eq]; rfl, by rw [c2v0_eq]; rfl, by rw [c2v0_eq]; rfl⟩,
    ⟨?_, ?_⟩, ⟨?_, ?_⟩, ?_, ?_, ?_, ?_, ?_, ?_⟩
  · rw [c2_441]; rfl
  · rw [c2_442]
  · rw [c2_4852]
  · rw [c2_4853]
  · rw [c2vR_eq]
  · intro k hk
    rw [c2_release_run k (by omega)]
  · rw [c2_release_run 22050 (by norm_num)]
    simp [PolyVoice.processOut, attackVoice]
  · rw [h22051]
  · rw [h22051]
  · rw [h22051]

/-- Witness for C2: the release-stage clause applied at call index 0. -/
theorem claim_C2_witness : (PolyVoice.processStep^[0] c2vR).state = .release :=
  claim_C2.2.2.2.2.1 0 (by norm_num)

end XenSynth

namespace XenSynth

/-! ## C1: pool shrink drops voices in the same step that releases them -/

/-- Envelope override used in the C1 scenario: instant attack and decay so
that four voices reach Sustain after four render ticks. -/
def c1Ov : EnvelopeOverride :=
  { attack := some 0, decay := some 0, sustain := some (7/10), release := some (1/2) }

/-- Parametrised literal voice of the C1 scenario (attackSamples =
decaySamples = 1 from the zero-length stages, releaseSamples = 22050). -/
def c1V (freq id : ℚ) (st : VoiceState) (env samples : ℕ) : PolyVoice :=
  { sr := 44100, freq := freq, samples := samples, state := st, envSamples := env,
    attackSamples := 1, decaySamples := 1, releaseSamples := 22050,
    sustainLevel := 7/10, noteId := id, waveform := .sine }

theorem c1V_state (freq id : ℚ) (st : VoiceState) (env samples : ℕ) :
    (c1V freq id st env samples).state = st := rfl

theorem c1V_sr (freq id : ℚ) (st : VoiceState) (env samples : ℕ) :
    (c1V freq id st env samples).sr = 44100 := rfl

theorem noteOn_c1_eval (v : PolyVoice) (hsr : v.sr = 44100) (freq id : ℚ) :
    (v.setWaveform .sine).noteOn freq id (mergedNoteOnEnvelope DEFAULT_ENV (some c1Ov)) =
      c1V freq id .attack 0 0 := by
  simp [PolyVoice.setWaveform, PolyVoice.noteOn, mergedNoteOnEnvelope, c1Ov, DEFAULT_ENV,
    c1V, hsr, sts_zero, clamp_default]
  norm_num [secondsToSamples]
  all_goals decide

theorem c1_tick1 (freq id : ℚ) :
    (c1V freq id .attack 0 0).processStep = c1V freq id .attack 1 1 := by
  simp [PolyVoice.processStep, c1V]

theorem c1_tick2 (freq id : ℚ) :
    (c1V freq id .attack 1 1).processStep = c1V freq id .decay 0 2 := by
  simp [PolyVoice.processStep, c1V]

theorem c1_tick3 (freq id : ℚ) :
    (c1V freq id .decay 0 2).processStep = c1V freq id .decay 1 3 := by
  simp [PolyVoice.processStep, c1V]

theorem c1_tick4 (freq id : ℚ) :
    (c1V freq id .decay 1 3).processStep = c1V freq id .sustain 0 4 := by
  simp [PolyVoice.processStep, c1V]

/-- The C1 trace: polyphony 4, four notes, four ticks (all four voices end
in Sustain). -/
def c1Trace : List Step :=
  [.msg (.setPolyphony 4),
   .msg (.noteOn 1 440 (some c1Ov)), .msg (.noteOn 2 550 (some c1Ov)),
   .msg (.noteOn 3 660 (some c1Ov)), .msg (.noteOn 4 770 (some c1Ov)),
   .tick, .tick, .tick, .tick]

def c1State : SynthState := runTrace (initState 44100) c1Trace

theorem c1State_eq :
    c1State = { sr := 44100,
                voices := [c1V 440 1 .sustain 0 4, c1V 550 2 .sustain 0 4,
                           c1V 660 3 .sustain 0 4, c1V 770 4 .sustain 0 4],
                baseEnvelope := DEFAULT_ENV, waveform := .sine } := by
  have hs1 : applyMsg (initState 44100) (.setPolyphony 4) =
      { sr := 44100, voices := [mkPolyVoice 44100, mkPolyVoice 44100,
                                mkPolyVoice 44100, mkPolyVoice 44100],
        baseEnvelope := DEFAULT_ENV, waveform := .sine } := by
    rw [initState_eq]
    simp only [applyMsg, poly_toNat_four, resizeVoices]
    norm_num [releaseTail, mkPolyVoice, PolyVoice.setWaveform, List.take_replicate,
      List.take_append, List.map_replicate, List.take_take, List.replicate_succ,
      List.replicate_zero]
  rw [c1State, c1Trace]
  simp only [runTrace, List.foldl_cons, List.foldl_nil, stepRun, hs1]
  simp [applyMsg, findFreeOrSteal, firstIdle, c1V_state, updateAt, mkPolyVoice,
    noteOn_c1_eval, tickState, c1_tick1, c1_tick2, c1_tick3, c1_tick4]

/-- C1. The claim fails on the code: shrinking the pool drops the excess
voices in the same onmessage step that force-releases them, before any
process() call can render the release ramp. Concretely, with four voices
in Sustain, setPolyphony(1) leaves a pool of length 1, and each of the
three dropped voice objects is, at the moment its slot is removed, in
Release with stageSampleCounter = 0 out of releaseSamples = 22050: none of
them has produced a single sample of its release ramp, so their output
ceases abruptly at full sustain amplitude instead of being ramped to
silence before the drop. -/
theorem claim_C1 :
    (∀ v ∈ c1State.voices, v.state = .sustain)
    ∧ c1State.voices.length = 4
    ∧ (applyMsg c1State (.setPolyphony 1)).voices.length = 1
    ∧ (droppedAtShrink c1State 1).map PolyVoice.state = [.release, .release, .release]
    ∧ (droppedAtShrink c1State 1).map PolyVoice.envSamples = [0, 0, 0]
    ∧ (droppedAtShrink c1State 1).map PolyVoice.releaseSamples = [22050, 22050, 22050] := by
  refine ⟨?_, ?_, ?_, ?_, ?_, ?_⟩
  · rw [c1State_eq]
    intro v hv
    simp only [List.mem_cons, List.not_mem_nil, or_false] at hv
    rcases hv with rfl | rfl | rfl | rfl <;> rfl
  · rw [c1State_eq]; rfl
  · show (resizeVoices c1State _).voices.length = 1
    rw [resizeVoices_length, poly_toNat_one]
  · rw [c1State_eq]
    simp [droppedAtShrink, PolyVoice.forceRelease, c1V, List.drop]
  · rw [c1State_eq]
    simp [droppedAtShrink, PolyVoice.forceRelease, c1V, List.drop]
  · rw [c1State_eq]
    simp [droppedAtShrink, PolyVoice.forceRelease, c1V, List.drop]

end XenSynth

namespace XenSynth

/-! ## C9: note ids are not kept unique -/

theorem noteOn_state_eq (v : PolyVoice) (freq id : ℚ) (env : Envelope) :
    (v.noteOn freq id env).state = .attack := rfl

theorem noteOn_noteId_eq (v : PolyVoice) (freq id : ℚ) (env : Envelope) :
    (v.noteOn freq id env).noteId = id := rfl

theorem noteOff_of_attack (v : PolyVoice) (id : ℚ) (hst : v.state = .attack)
    (hid : v.noteId = id) : (v.noteOff id).state = .release := by
  unfold PolyVoice.noteOff
  rw [if_pos ⟨by simp [hst], hid, by simp [hst]⟩]

theorem getElem?_mem_list {l : List PolyVoice} {i : ℕ} {v : PolyVoice}
    (h : l[i]? = some v) : v ∈ l := by
  induction l generalizing i with
  | nil => simp at h
  | cons w ws ih =>
    cases i with
    | zero =>
      simp only [List.getElem?_cons_zero, Option.some.injEq] at h
      subst h
      exact List.mem_cons_self _ _
    | succ i =>
      simp only [List.getElem?_cons_succ] at h
      exact List.mem_cons_of_mem _ (ih h)

/-- C9. Ownership ids are not kept unique: from any pool state holding two
idle voices (at distinct indices), two noteOn messages carrying the same id
with no intervening noteOff put the id onto two distinct voices
simultaneously, and because noteOff(id) is broadcast to every voice, the
single subsequent noteOff(id) moves both of those voices into Release. -/
theorem claim_C9 (s : SynthState) (id f1 f2 : ℚ) (e1 e2 : Option EnvelopeOverride)
    (h2 : ∃ (i j : ℕ) (vi vj : PolyVoice), i ≠ j ∧ s.voices[i]? = some vi ∧ vi.state = .idle
            ∧ s.voices[j]? = some vj ∧ vj.state = .idle) :
    ∃ (a b : ℕ) (va vb : PolyVoice),
      a ≠ b
      ∧ (applyMsg (applyMsg s (.noteOn id f1 e1)) (.noteOn id f2 e2)).voices[a]? = some va
      ∧ va.noteId = id
      ∧ (applyMsg (applyMsg s (.noteOn id f1 e1)) (.noteOn id f2 e2)).voices[b]? = some vb
      ∧ vb.noteId = id
      ∧ ∃ (va2 vb2 : PolyVoice),
          (applyMsg (applyMsg (applyMsg s (.noteOn id f1 e1)) (.noteOn id f2 e2))
              (.noteOff id)).voices[a]? = some va2
          ∧ (applyMsg (applyMsg (applyMsg s (.noteOn id f1 e1)) (.noteOn id f2 e2))
              (.noteOff id)).voices[b]? = some vb2
          ∧ va2.state = .release ∧ vb2.state = .release := by
  obtain ⟨i, j, vi, vj, hij, hvi, hsti, hvj, hstj⟩ := h2
  obtain ⟨a, ha⟩ := firstIdle_some_of_exists s.voices
    ⟨vi, getElem?_mem_list hvi, hsti⟩
  have hffs1 : findFreeOrSteal s.voices = a := by simp [findFreeOrSteal, ha]
  obtain ⟨va0, hva0, hva0idle⟩ := firstIdle_target s.voices a ha
  have hs1v : (applyMsg s (.noteOn id f1 e1)).voices =
      updateAt (fun v => (v.setWaveform s.waveform).noteOn f1 id
        (mergedNoteOnEnvelope s.baseEnvelope e1)) a s.voices := by
    simp [applyMsg, hffs1]
  have ha1 : (applyMsg s (.noteOn id f1 e1)).voices[a]? =
      some ((va0.setWaveform s.waveform).noteOn f1 id
        (mergedNoteOnEnvelope s.baseEnvelope e1)) := by
    rw [hs1v, getElem?_updateAt, if_pos rfl, hva0]
    rfl
  obtain ⟨c, vc, hcne, hvc, hvcidle⟩ :
      ∃ (c : ℕ) (vc : PolyVoice), c ≠ a ∧ s.voices[c]? = some vc ∧ vc.state = .idle := by
    rcases eq_or_ne i a with rfl | hne
    · exact ⟨j, vj, fun h => hij h.symm, hvj, hstj⟩
    · exact ⟨i, vi, hne, hvi, hsti⟩
  have hvc1 : (applyMsg s (.noteOn id f1 e1)).voices[c]? = some vc := by
    rw [hs1v, getElem?_updateAt, if_neg hcne, hvc]
  generalize hS1 : applyMsg s (Msg.noteOn id f1 e1) = s1 at ha1 hvc1 ⊢
  obtain ⟨b, hb⟩ := firstIdle_some_of_exists s1.voices
    ⟨vc, getElem?_mem_list hvc1, hvcidle⟩
  have hffs2 : findFreeOrSteal s1.voices = b := by
    simp [findFreeOrSteal, hb]
  obtain ⟨vb0, hvb0, hvb0idle⟩ := firstIdle_target s1.voices b hb
  have hba : b ≠ a := by
    intro h
    subst h
    rw [ha1] at hvb0
    cases hvb0
    exact absurd hvb0idle (by simp [PolyVoice.noteOn])
  have hs2v : (applyMsg s1 (.noteOn id f2 e2)).voices =
      updateAt (fun v => (v.setWaveform s1.waveform).noteOn f2 id
        (mergedNoteOnEnvelope s1.baseEnvelope e2)) b s1.voices := by
    simp [applyMsg, hffs2]
  have ha2 : (applyMsg s1 (.noteOn id f2 e2)).voices[a]? =
      some ((va0.setWaveform s.waveform).noteOn f1 id
        (mergedNoteOnEnvelope s.baseEnvelope e1)) := by
    rw [hs2v, getElem?_updateAt, if_neg (fun h => hba h.symm), ha1]
  have hb2 : (applyMsg s1 (.noteOn id f2 e2)).voices[b]? =
      some ((vb0.setWaveform s1.waveform).noteOn f2 id
        (mergedNoteOnEnvelope s1.baseEnvelope e2)) := by
    rw [hs2v, getElem?_updateAt, if_pos rfl, hvb0]
    rfl
  generalize hS2 : applyMsg s1 (Msg.noteOn id f2 e2) = s2 at ha2 hb2 ⊢
  refine ⟨a, b, _, _, fun h => hba h.symm, ha2, noteOn_noteId_eq _ _ _ _,
    hb2, noteOn_noteId_eq _ _ _ _, ?_⟩
  refine ⟨((va0.setWaveform s.waveform).noteOn f1 id
      (mergedNoteOnEnvelope s.baseEnvelope e1)).noteOff id,
    ((vb0.setWaveform s1.waveform).noteOn f2 id
      (mergedNoteOnEnvelope s1.baseEnvelope e2)).noteOff id, ?_, ?_, ?_, ?_⟩
  · simp only [applyMsg, List.getElem?_map, ha2, Option.map_some']
  · simp only [applyMsg, List.getElem?_map, hb2, Option.map_some']
  · exact noteOff_of_attack _ id (noteOn_state_eq _ _ _ _) (noteOn_noteId_eq _ _ _ _)
  · exact noteOff_of_attack _ id (noteOn_state_eq _ _ _ _) (noteOn_noteId_eq _ _ _ _)

/-- Witness for C9 at a concrete two-voice idle pool and id 5. -/
theorem claim_C9_witness :
    ∃ (a b : ℕ) (va vb : PolyVoice),
      a ≠ b
      ∧ (applyMsg (applyMsg
            { sr := 44100, voices := [mkPolyVoice 44100, mkPolyVoice 44100],
              baseEnvelope := DEFAULT_ENV, waveform := Waveform.sine }
            (.noteOn 5 440 none)) (.noteOn 5 660 none)).voices[a]? = some va
      ∧ va.noteId = 5
      ∧ (applyMsg (applyMsg
            { sr := 44100, voices := [mkPolyVoice 44100, mkPolyVoice 44100],
              baseEnvelope := DEFAULT_ENV, waveform := Waveform.sine }
            (.noteOn 5 440 none)) (.noteOn 5 660 none)).voices[b]? = some vb
      ∧ vb.noteId = 5
      ∧ ∃ (va2 vb2 : PolyVoice),
          (applyMsg (applyMsg (applyMsg
              { sr := 44100, voices := [mkPolyVoice 44100, mkPolyVoice 44100],
                baseEnvelope := DEFAULT_ENV, waveform := Waveform.sine }
              (.noteOn 5 440 none)) (.noteOn 5 660 none)) (.noteOff 5)).voices[a]? = some va2
          ∧ (applyMsg (applyMsg (applyMsg
              { sr := 44100, voices := [mkPolyVoice 44100, mkPolyVoice 44100],
                baseEnvelope := DEFAULT_ENV, waveform := Waveform.sine }
              (.noteOn 5 440 none)) (.noteOn 5 660 none)) (.noteOff 5)).voices[b]? = some vb2
          ∧ va2.state = .release ∧ vb2.state = .release :=
  claim_C9 _ 5 440 660 none none
    ⟨0, 1, mkPolyVoice 44100, mkPolyVoice 44100, by norm_num, rfl, rfl, rfl, rfl⟩

end XenSynth

namespace XenSynth

/-! ## C4: mix headroom -/

/-- Well-formedness of a voice's envelope data, as established by noteOn
(clamped sustain) and preserved by process(): the stage counter never
exceeds the current stage length. -/
def EnvOk (v : PolyVoice) : Prop :=
  0 ≤ v.sustainLevel ∧ v.sustainLevel ≤ 1
    ∧ (v.state = .attack → v.envSamples ≤ v.attackSamples)
    ∧ (v.state = .decay → v.envSamples ≤ v.decaySamples)
    ∧ (v.state = .release → v.envSamples ≤ v.releaseSamples)

theorem div_mem_unit (e a : ℕ) (h : e ≤ a) :
    0 ≤ (e : ℚ) / a ∧ (e : ℚ) / a ≤ 1 := by
  rcases Nat.eq_zero_or_pos a with rfl | ha
  · interval_cases e
    norm_num
  · constructor
    · positivity
    · rw [div_le_one (by exact_mod_cast ha)]
      exact_mod_cast h

theorem envAmpQ_mem (v : PolyVoice) (h : EnvOk v) :
    0 ≤ v.envAmpQ ∧ v.envAmpQ ≤ 1 := by
  obtain ⟨hs0, hs1, hat, hde, hre⟩ := h
  unfold PolyVoice.envAmpQ
  cases hst : v.state
  case idle => norm_num
  case attack => exact div_mem_unit _ _ (hat hst)
  case decay =>
    obtain ⟨ht0, ht1⟩ := div_mem_unit v.envSamples v.decaySamples (hde hst)
    constructor <;> nlinarith
  case sustain => exact ⟨hs0, hs1⟩
  case release =>
    obtain ⟨ht0, ht1⟩ := div_mem_unit v.envSamples v.releaseSamples (hre hst)
    constructor <;> nlinarith

theorem abs_real_sign_le_one (x : ℝ) : |Real.sign x| ≤ 1 := by
  rcases lt_trichotomy x 0 with h | h | h
  · rw [Real.sign_of_neg h]; norm_num
  · rw [h, Real.sign_zero]; norm_num
  · rw [Real.sign_of_pos h]; norm_num

theorem abs_powerSin_le_one (p : ℝ) (n : ℕ) : |powerSin p n| ≤ 1 := by
  unfold powerSin
  rw [abs_mul]
  calc |(|Real.sin (2 * Real.pi * p)|) ^ n| * |Real.sign (Real.sin (2 * Real.pi * p))|
      ≤ 1 * 1 := by
        apply mul_le_mul _ (abs_real_sign_le_one _) (abs_nonneg _) zero_le_one
        rw [abs_of_nonneg (pow_nonneg (abs_nonneg _) n)]
        exact pow_le_one₀ (abs_nonneg _) (Real.abs_sin_le_one _)
    _ = 1 := by norm_num

theorem abs_oscSample_le_one (w : Waveform) (p : ℝ) (h0 : 0 ≤ p) (h1 : p < 1) :
    |oscSample w p| ≤ 1 := by
  cases w with
  | square =>
    simp only [oscSample]
    split <;> norm_num
  | triangle =>
    simp only [oscSample]
    have h2 : |p - 1/2| ≤ 1/2 := by
      rw [abs_le]
      constructor <;> linarith
    have h3 : (0:ℝ) ≤ |p - 1/2| := abs_nonneg _
    rw [abs_le]
    constructor <;> linarith
  | sawtooth =>
    simp only [oscSample]
    rw [abs_le]
    constructor <;> linarith
  | power2 => exact abs_powerSin_le_one p 2
  | power3 => exact abs_powerSin_le_one p 3
  | power4 => exact abs_powerSin_le_one p 4
  | selfmod01 => exact Real.abs_sin_le_one _
  | selfmod02 => exact Real.abs_sin_le_one _
  | selfmod03 => exact Real.abs_sin_le_one _
  | sine => exact Real.abs_sin_le_one _
  | other tag => exact Real.abs_sin_le_one _

theorem targetRMS_nonneg : 0 ≤ targetRMS := Real.sqrt_nonneg _

theorem gain_nonneg (w : Waveform) : 0 ≤ NORMALIZATION_GAIN w := by
  unfold NORMALIZATION_GAIN
  split
  · split
    · next h2 => exact div_nonneg targetRMS_nonneg h2.le
    · norm_num
  · norm_num

theorem phaseQ_mem (v : PolyVoice) : 0 ≤ v.phaseQ ∧ v.phaseQ < 1 :=
  ⟨Int.fract_nonneg _, Int.fract_lt_one _⟩

theorem processOut_abs_le (v : PolyVoice) (h : EnvOk v) :
    |v.processOut| ≤ NORMALIZATION_GAIN v.waveform := by
  obtain ⟨hp0, hp1⟩ := phaseQ_mem v
  obtain ⟨ha0, ha1⟩ := envAmpQ_mem v h
  have hosc : |oscSample v.waveform ((v.phaseQ : ℚ) : ℝ)| ≤ 1 :=
    abs_oscSample_le_one _ _ (by exact_mod_cast hp0) (by exact_mod_cast hp1)
  have hgn := gain_nonneg v.waveform
  have hampR0 : (0:ℝ) ≤ ((v.envAmpQ : ℚ) : ℝ) := by exact_mod_cast ha0
  have hampR1 : ((v.envAmpQ : ℚ) : ℝ) ≤ 1 := by exact_mod_cast ha1
  have hbody : |oscSample v.waveform ((v.phaseQ : ℚ) : ℝ) * NORMALIZATION_GAIN v.waveform *
      ((v.envAmpQ : ℚ) : ℝ)| ≤ NORMALIZATION_GAIN v.waveform := by
    rw [abs_mul, abs_mul, abs_of_nonneg hgn, abs_of_nonneg hampR0]
    nlinarith [mul_nonneg (mul_nonneg (sub_nonneg.mpr hosc) hgn) hampR0,
      mul_nonneg hgn (sub_nonneg.mpr hampR1),
      abs_nonneg (oscSample v.waveform ((v.phaseQ : ℚ) : ℝ))]
  cases hst : v.state
  case idle => simp [PolyVoice.processOut, hst, hgn]
  case attack => simpa [PolyVoice.processOut, hst] using hbody
  case decay => simpa [PolyVoice.processOut, hst] using hbody
  case sustain => simpa [PolyVoice.processOut, hst] using hbody
  case release =>
    by_cases hc : v.releaseSamples ≤ v.envSamples
    · simp [PolyVoice.processOut, hst, hc, hgn]
    · simpa [PolyVoice.processOut, hst, hc] using hbody

end XenSynth

namespace XenSynth

theorem envOk_processStep (v : PolyVoice) (h : EnvOk v) : EnvOk v.processStep := by
  obtain ⟨hs0, hs1, hat, hde, hre⟩ := h
  rcases v with ⟨vsr, vfreq, vsamples, vst, venv, va, vd, vr, vsus, vnid, vwf⟩
  simp only at hs0 hs1 hat hde hre
  cases vst <;>
    simp_all [PolyVoice.processStep, EnvOk] <;>
    split <;>
    simp_all <;>
    omega

theorem waveform_processStep (v : PolyVoice) : v.processStep.waveform = v.waveform := by
  rcases v with ⟨vsr, vfreq, vsamples, vst, venv, va, vd, vr, vsus, vnid, vwf⟩
  cases vst <;> simp [PolyVoice.processStep] <;> split <;> simp

theorem mixSum_abs_le (w : Waveform) (l : List PolyVoice)
    (hw : ∀ v ∈ l, v.waveform = w) (he : ∀ v ∈ l, EnvOk v) :
    |mixSum l| ≤ l.length * NORMALIZATION_GAIN w := by
  induction l with
  | nil => simp [mixSum]
  | cons v vs ih =>
    have hv : |v.processOut| ≤ NORMALIZATION_GAIN w := by
      rw [← hw v (List.mem_cons_self _ _)]
      exact processOut_abs_le v (he v (List.mem_cons_self _ _))
    have htail : |mixSum vs| ≤ vs.length * NORMALIZATION_GAIN w :=
      ih (fun u hu => hw u (List.mem_cons_of_mem _ hu))
        (fun u hu => he u (List.mem_cons_of_mem _ hu))
    have hsum : mixSum (v :: vs) = v.processOut + mixSum vs := by
      simp [mixSum]
    rw [hsum]
    calc |v.processOut + mixSum vs| ≤ |v.processOut| + |mixSum vs| := abs_add _ _
      _ ≤ NORMALIZATION_GAIN w + vs.length * NORMALIZATION_GAIN w := by linarith
      _ = (v :: vs).length * NORMALIZATION_GAIN w := by
          simp [List.length_cons]
          ring

theorem outSample_abs_le (w : Waveform) (s : SynthState) (g : ℚ)
    (hw : ∀ v ∈ s.voices, v.waveform = w) (he : ∀ v ∈ s.voices, EnvOk v)
    (hg0 : 0 ≤ g) (hg1 : g ≤ 1) :
    |outSample s g| ≤ s.voices.length * NORMALIZATION_GAIN w * (1/6) := by
  have hmix := mixSum_abs_le w s.voices hw he
  have hgR0 : (0:ℝ) ≤ (g : ℚ) := by exact_mod_cast hg0
  have hgR1 : ((g : ℚ) : ℝ) ≤ 1 := by exact_mod_cast hg1
  have havg : ((AVG_EXPECTED_SIMULTANEOUS_VOICES : ℚ) : ℝ) = 6 := by
    norm_num [AVG_EXPECTED_SIMULTANEOUS_VOICES]
  have hlg : (0:ℝ) ≤ s.voices.length * NORMALIZATION_GAIN w :=
    mul_nonneg (by positivity) (gain_nonneg w)
  rw [outSample, havg, abs_mul, abs_mul, abs_of_nonneg hgR0]
  have h16 : |(1:ℝ)/6| = 1/6 := by norm_num
  rw [h16]
  nlinarith [abs_nonneg (mixSum s.voices),
    mul_nonneg (mul_nonneg (sub_nonneg.mpr hgR1) hlg) (by norm_num : (0:ℝ) ≤ 1/6),
    mul_nonneg (mul_nonneg (sub_nonneg.mpr hmix) hgR0) (by norm_num : (0:ℝ) ≤ 1/6)]

theorem renderSamples_abs_le (w : Waveform) (vols : List ℚ) :
    ∀ s : SynthState,
      (∀ v ∈ s.voices, v.waveform = w) → (∀ v ∈ s.voices, EnvOk v) →
      (∀ g ∈ vols, 0 ≤ g ∧ g ≤ 1) →
      ∀ x ∈ renderSamples s vols,
        |x| ≤ s.voices.length * NORMALIZATION_GAIN w * (1/6) := by
  induction vols with
  | nil =>
    intro s _ _ _ x hx
    simp [renderSamples] at hx
  | cons g vols ih =>
    intro s hw he hg x hx
    rcases List.mem_cons.mp hx with rfl | hx2
    · exact outSample_abs_le w s g hw he (hg g (List.mem_cons_self _ _)).1
        (hg g (List.mem_cons_self _ _)).2
    · have hlen : (tickState s).voices.length = s.voices.length := by
        simp [tickState]
      have := ih (tickState s)
        (by
          intro u hu
          rcases List.mem_map.mp hu with ⟨u0, hu0, rfl⟩
          rw [waveform_processStep]
          exact hw u0 hu0)
        (by
          intro u hu
          rcases List.mem_map.mp hu with ⟨u0, hu0, rfl⟩
          exact envOk_processStep u0 (he u0 hu0))
        (fun g2 hg2 => hg g2 (List.mem_cons_of_mem _ hg2)) x hx2
      rw [hlen] at this
      exact this

end XenSynth

namespace XenSynth

theorem rmsTotal_50_1 : (max 1 50 * max 1 1 : ℕ) = 50 := by decide

theorem rmsPhase_50_0 : rmsPhase 50 0 = 0 := by
  norm_num [rmsPhase, Int.fract]

theorem rmsPhase_mem (p i : ℕ) : 0 ≤ rmsPhase p i ∧ rmsPhase p i < 1 :=
  ⟨Int.fract_nonneg _, Int.fract_lt_one _⟩

theorem osc_triangle_zero : oscSample .triangle ((0:ℚ) : ℝ) = -1 := by
  simp only [oscSample, Rat.cast_zero]
  rw [zero_sub, abs_neg, abs_of_nonneg (by norm_num : (0:ℝ) ≤ 1/2)]
  norm_num

/-- Positivity of a 50-point, 1-cycle RMS as soon as one sampled value is
nonzero. -/
theorem rmsOf_pos_of_term (f : ℚ → ℝ) (i0 : ℕ) (hi0 : i0 < 50)
    (h : f (rmsPhase 50 i0) ≠ 0) : 0 < rmsOf f 50 1 := by
  unfold rmsOf
  rw [rmsTotal_50_1]
  apply Real.sqrt_pos.mpr
  apply div_pos
  · apply Finset.sum_pos' (fun i _ => sq_nonneg _)
    refine ⟨i0, Finset.mem_range.mpr hi0, ?_⟩
    calc (0:ℝ) < |f (rmsPhase 50 i0)| ^ 2 := pow_pos (abs_pos.mpr h) 2
      _ = f (rmsPhase 50 i0) ^ 2 := sq_abs _
  · norm_num

theorem targetRMS_pos : 0 < targetRMS := by
  unfold targetRMS computeWaveformRMS RMS_SAMPLE_POINTS RMS_NUM_CYCLES
  apply rmsOf_pos_of_term _ 0 (by norm_num)
  rw [rmsPhase_50_0, osc_triangle_zero]
  norm_num

theorem targetRMS_le_one : targetRMS ≤ 1 := by
  unfold targetRMS computeWaveformRMS RMS_SAMPLE_POINTS RMS_NUM_CYCLES rmsOf
  rw [rmsTotal_50_1]
  apply Real.sqrt_le_one.mpr
  rw [div_le_one (by norm_num)]
  have hterm : ∀ i ∈ Finset.range 50,
      oscSample .triangle ((rmsPhase 50 i : ℚ) : ℝ) ^ 2 ≤ 1 := by
    intro i _
    obtain ⟨h0, h1⟩ := rmsPhase_mem 50 i
    exact (sq_le_one_iff_abs_le_one _).mpr
      (abs_oscSample_le_one _ _ (by exact_mod_cast h0) (by exact_mod_cast h1))
  calc (∑ i ∈ Finset.range 50, oscSample .triangle ((rmsPhase 50 i : ℚ) : ℝ) ^ 2)
      ≤ (Finset.range 50).card • (1:ℝ) := Finset.sum_le_card_nsmul _ _ _ hterm
    _ = 50 := by simp

theorem sq_osc_square (p : ℝ) : oscSample .square p ^ 2 = 1 := by
  simp only [oscSample]
  split <;> norm_num

theorem rms_square_eq_one : computeWaveformRMS .square 50 1 = 1 := by
  unfold computeWaveformRMS rmsOf
  rw [rmsTotal_50_1]
  have hsum : (∑ i ∈ Finset.range 50,
      oscSample .square ((rmsPhase 50 i : ℚ) : ℝ) ^ 2) = 50 := by
    rw [Finset.sum_congr rfl (fun i _ => sq_osc_square _)]
    simp
  rw [hsum]
  norm_num

theorem gain_triangle_eq : NORMALIZATION_GAIN .triangle = 1 := by
  unfold NORMALIZATION_GAIN
  rw [if_pos (by simp [KNOWN_WAVEFORMS])]
  have h : 0 < computeWaveformRMS .triangle RMS_SAMPLE_POINTS RMS_NUM_CYCLES := targetRMS_pos
  rw [if_pos h]
  exact div_self (ne_of_gt h)

theorem gain_square_le_one : NORMALIZATION_GAIN .square ≤ 1 := by
  unfold NORMALIZATION_GAIN
  rw [if_pos (by simp [KNOWN_WAVEFORMS])]
  have h : computeWaveformRMS .square RMS_SAMPLE_POINTS RMS_NUM_CYCLES = 1 :=
    rms_square_eq_one
  rw [if_pos (by rw [h]; norm_num), h, div_one]
  exact targetRMS_le_one

/-- C4 (amended). Every sample written by the render loop is bounded by
poolSize · NORMALIZATION_GAIN[w] · volume / 6 when all voices share
waveform w and have well-formed envelopes and the volume values lie in
[0,1]; in particular |s| ≤ 1 whenever the pool has at most 6 voices and
the shared waveform's gain is at most 1 (e.g. triangle or square). The
claim as stated — |s| ≤ 1 for ALL pools — fails at the default pool of 16
voices (see the counterexample theorem). -/
theorem claim_C4 (s : SynthState) (w : Waveform) (vols : List ℚ)
    (hw : ∀ v ∈ s.voices, v.waveform = w) (he : ∀ v ∈ s.voices, EnvOk v)
    (hg : ∀ g ∈ vols, 0 ≤ g ∧ g ≤ 1) :
    (∀ x ∈ renderSamples s vols,
        |x| ≤ s.voices.length * NORMALIZATION_GAIN w * (1/6))
    ∧ ((w = .triangle ∨ w = .square) → s.voices.length ≤ 6 →
        ∀ x ∈ renderSamples s vols, |x| ≤ 1) := by
  refine ⟨renderSamples_abs_le w vols s hw he hg, ?_⟩
  intro hw2 hlen x hx
  have h1 := renderSamples_abs_le w vols s hw he hg x hx
  have hgain : NORMALIZATION_GAIN w ≤ 1 := by
    rcases hw2 with rfl | rfl
    · rw [gain_triangle_eq]
    · exact gain_square_le_one
  have hgn := gain_nonneg w
  have hlenR : (s.voices.length : ℝ) ≤ 6 := by exact_mod_cast hlen
  have hlen0 : (0:ℝ) ≤ (s.voices.length : ℝ) := by positivity
  nlinarith [mul_nonneg hlen0 (sub_nonneg.mpr hgain),
    mul_nonneg (sub_nonneg.mpr hlenR) hgn]

/-- Literal voice of the C4 counterexample: triangle waveform, sustain
level 1 (from the clamped override), frequency = sampleRate so that the
phase is exactly 0 at every sample. -/
def c4V (id : ℚ) (st : VoiceState) (env samples : ℕ) : PolyVoice :=
  { sr := 44100, freq := 44100, samples := samples, state := st, envSamples := env,
    attackSamples := 1, decaySamples := 1, releaseSamples := 22050,
    sustainLevel := 1, noteId := id, waveform := .triangle }

/-- Witness for C4 at a one-voice sustaining triangle pool and a single
full-volume sample. -/
theorem claim_C4_witness :
    |outSample { sr := 44100, voices := [c4V 1 .sustain 0 4],
                 baseEnvelope := DEFAULT_ENV, waveform := .triangle } 1| ≤ 1 :=
  (claim_C4
    { sr := 44100, voices := [c4V 1 .sustain 0 4],
      baseEnvelope := DEFAULT_ENV, waveform := .triangle } .triangle [1]
    (by
      intro v hv
      simp only [List.mem_singleton] at hv
      subst hv
      rfl)
    (by
      intro v hv
      simp only [List.mem_singleton] at hv
      subst hv
      refine ⟨by norm_num [c4V], by norm_num [c4V], ?_, ?_, ?_⟩ <;> intro h <;>
        simp [c4V] at h)
    (by intro g hg; simp only [List.mem_singleton] at hg; subst hg; norm_num)).2
    (Or.inl rfl) (by norm_num)
    _ (by simp [renderSamples])

end XenSynth

namespace XenSynth

/-- Envelope override of the C4 scenario: instant attack/decay, sustain 1. -/
def c4Ov : EnvelopeOverride :=
  { attack := some 0, decay := some 0, sustain := some 1, release := some (1/2) }

theorem c4V_state (id : ℚ) (st : VoiceState) (env samples : ℕ) :
    (c4V id st env samples).state = st := rfl

theorem noteOn_c4_eval (v : PolyVoice) (hsr : v.sr = 44100) (id : ℚ) :
    (v.setWaveform .triangle).noteOn 44100 id
        (mergedNoteOnEnvelope DEFAULT_ENV (some c4Ov)) = c4V id .attack 0 0 := by
  simp [PolyVoice.setWaveform, PolyVoice.noteOn, mergedNoteOnEnvelope, c4Ov, DEFAULT_ENV,
    c4V, hsr, sts_zero, clamp_one]
  norm_num [secondsToSamples]
  all_goals decide

theorem noteOn_c4_eval2 (v : PolyVoice) (hsr : v.sr = 44100)
    (hwf : v.waveform = .triangle) (id : ℚ) :
    v.noteOn 44100 id (mergedNoteOnEnvelope DEFAULT_ENV (some c4Ov)) =
      c4V id .attack 0 0 := by
  simp [PolyVoice.noteOn, mergedNoteOnEnvelope, c4Ov, DEFAULT_ENV, c4V, hsr, hwf,
    sts_zero, clamp_one]
  norm_num [secondsToSamples]
  all_goals decide

theorem c4_tick1 (id : ℚ) :
    (c4V id .attack 0 0).processStep = c4V id .attack 1 1 := by
  simp [PolyVoice.processStep, c4V]

theorem c4_tick2 (id : ℚ) :
    (c4V id .attack 1 1).processStep = c4V id .decay 0 2 := by
  simp [PolyVoice.processStep, c4V]

theorem c4_tick3 (id : ℚ) :
    (c4V id .decay 0 2).processStep = c4V id .decay 1 3 := by
  simp [PolyVoice.processStep, c4V]

theorem c4_tick4 (id : ℚ) :
    (c4V id .decay 1 3).processStep = c4V id .sustain 0 4 := by
  simp [PolyVoice.processStep, c4V]

/-- The C4 counterexample trace: polyphony 7, triangle waveform, seven
notes at sustain level 1, four ticks (all seven voices reach Sustain). -/
def c4Trace : List Step :=
  [.msg (.setPolyphony 7), .msg (.waveform .triangle),
   .msg (.noteOn 1 44100 (some c4Ov)), .msg (.noteOn 2 44100 (some c4Ov)),
   .msg (.noteOn 3 44100 (some c4Ov)), .msg (.noteOn 4 44100 (some c4Ov)),
   .msg (.noteOn 5 44100 (some c4Ov)), .msg (.noteOn 6 44100 (some c4Ov)),
   .msg (.noteOn 7 44100 (some c4Ov)),
   .tick, .tick, .tick, .tick]

def c4State : SynthState := runTrace (initState 44100) c4Trace

theorem c4State_eq :
    c4State = { sr := 44100,
                voices := [c4V 1 .sustain 0 4, c4V 2 .sustain 0 4, c4V 3 .sustain 0 4,
                           c4V 4 .sustain 0 4, c4V 5 .sustain 0 4, c4V 6 .sustain 0 4,
                           c4V 7 .sustain 0 4],
                baseEnvelope := DEFAULT_ENV, waveform := .triangle } := by
  have hs1 : applyMsg (initState 44100) (.setPolyphony 7) =
      { sr := 44100,
        voices := List.replicate 7 (mkPolyVoice 44100),
        baseEnvelope := DEFAULT_ENV, waveform := .sine } := by
    rw [initState_eq]
    simp only [applyMsg, poly_toNat_seven, resizeVoices]
    norm_num [releaseTail, mkPolyVoice, PolyVoice.setWaveform, List.take_replicate,
      List.take_append, List.map_replicate, List.take_take, List.replicate_succ,
      List.replicate_zero]
  rw [c4State, c4Trace]
  simp only [runTrace, List.foldl_cons, List.foldl_nil, stepRun, hs1]
  simp [applyMsg, findFreeOrSteal, firstIdle, c4V_state, updateAt, mkPolyVoice,
    PolyVoice.setWaveform, noteOn_c4_eval, noteOn_c4_eval2, tickState,
    List.replicate_succ, c4_tick1, c4_tick2, c4_tick3, c4_tick4]

theorem c4V_phase (id : ℚ) : (c4V id .sustain 0 4).phaseQ = 0 := by
  unfold PolyVoice.phaseQ
  have h : ((c4V id .sustain 0 4).samples : ℚ) * (c4V id .sustain 0 4).freq /
      (c4V id .sustain 0 4).sr = ((4:ℤ) : ℚ) := by
    norm_num [c4V]
  rw [h, Int.fract_intCast]

theorem c4V_out (id : ℚ) : (c4V id .sustain 0 4).processOut = -1 := by
  have hp := c4V_phase id
  have hamp : (c4V id .sustain 0 4).envAmpQ = 1 := rfl
  have hwf : (c4V id .sustain 0 4).waveform = .triangle := rfl
  simp only [PolyVoice.processOut, hp, hamp, hwf, c4V_state, osc_triangle_zero,
    gain_triangle_eq, Rat.cast_one]
  norm_num

/-- C4 counterexample. In the state reached by the trace — every one of the
seven pooled voices sounding in Sustain at sustain level 1 with the shared
triangle waveform — the first output sample of a block at volume 1
(a value within [0,1]) has magnitude 7/6 > 1, refuting the claimed bound
|s| ≤ 1; with the default 16-voice pool the violation is larger still. -/
theorem claim_C4_counterexample :
    (∀ v ∈ c4State.voices, v.state = .sustain ∧ v.sustainLevel = 1
        ∧ v.waveform = .triangle)
    ∧ ((0:ℚ) ≤ 1 ∧ (1:ℚ) ≤ 1)
    ∧ renderSamples c4State [1] = [outSample c4State 1]
    ∧ 1 < |outSample c4State 1| := by
  refine ⟨?_, by norm_num, by simp [renderSamples], ?_⟩
  · rw [c4State_eq]
    intro v hv
    simp only [List.mem_cons, List.not_mem_nil, or_false] at hv
    rcases hv with rfl | rfl | rfl | rfl | rfl | rfl | rfl <;>
      exact ⟨rfl, rfl, rfl⟩
  · have hmix : mixSum c4State.voices = -7 := by
      rw [c4State_eq]
      simp [mixSum, c4V_out]
      norm_num
    rw [outSample, hmix]
    have havg : ((AVG_EXPECTED_SIMULTANEOUS_VOICES : ℚ) : ℝ) = 6 := by
      norm_num [AVG_EXPECTED_SIMULTANEOUS_VOICES]
    rw [havg]
    rw [show ((-7 : ℝ) * ((1:ℚ) : ℝ) * (1/6) : ℝ) = -(7/6) by push_cast; ring]
    rw [abs_neg, abs_of_nonneg (by norm_num : (0:ℝ) ≤ 7/6)]
    norm_num

end XenSynth

namespace XenSynth

/-! ## C6: the normalization table and its idempotence -/

theorem rmsPhase_50_1 : rmsPhase 50 1 = 1/50 := by
  unfold rmsPhase
  rw [Int.fract_eq_self.mpr (by norm_num)]
  norm_num

theorem rmsPhase_50_1_cast : ((rmsPhase 50 1 : ℚ) : ℝ) = 1/50 := by
  rw [rmsPhase_50_1]
  norm_num

theorem sin_phi1_pos : 0 < Real.sin (2 * Real.pi * (1/50 : ℝ)) := by
  apply Real.sin_pos_of_pos_of_lt_pi
  · positivity
  · nlinarith [Real.pi_pos]

theorem powerSin_pos_phi1 (n : ℕ) : 0 < powerSin (1/50 : ℝ) n := by
  unfold powerSin
  rw [Real.sign_of_pos sin_phi1_pos, mul_one]
  exact pow_pos (abs_pos.mpr (ne_of_gt sin_phi1_pos)) n

theorem selfmod_phi1_pos (k : ℝ) (hk0 : 0 < k) (hk3 : k ≤ 3/10) :
    0 < Real.sin (2 * Real.pi * (1/50 : ℝ)
      + k * (2 * Real.pi) * Real.sin (2 * Real.pi * (1/50 : ℝ))) := by
  have hs := sin_phi1_pos
  have hs1 : Real.sin (2 * Real.pi * (1/50 : ℝ)) ≤ 1 := Real.sin_le_one _
  have hpi := Real.pi_pos
  apply Real.sin_pos_of_pos_of_lt_pi
  · positivity
  · nlinarith [mul_le_of_le_one_right hk0.le hs1]

theorem osc_square_zero : oscSample .square ((0:ℚ) : ℝ) = 1 := by
  simp only [oscSample, Rat.cast_zero]
  norm_num

theorem osc_sawtooth_zero : oscSample .sawtooth ((0:ℚ) : ℝ) = -1 := by
  simp only [oscSample, Rat.cast_zero]
  norm_num

theorem rms50_pos (w : Waveform) (hw : w ∈ KNOWN_WAVEFORMS) :
    0 < computeWaveformRMS w 50 1 := by
  unfold computeWaveformRMS
  fin_cases hw
  · exact rmsOf_pos_of_term _ 1 (by norm_num)
      (by rw [rmsPhase_50_1_cast]; exact ne_of_gt sin_phi1_pos)
  · exact rmsOf_pos_of_term _ 0 (by norm_num)
      (by rw [rmsPhase_50_0, osc_square_zero]; norm_num)
  · exact rmsOf_pos_of_term _ 0 (by norm_num)
      (by rw [rmsPhase_50_0, osc_triangle_zero]; norm_num)
  · exact rmsOf_pos_of_term _ 0 (by norm_num)
      (by rw [rmsPhase_50_0, osc_sawtooth_zero]; norm_num)
  · exact rmsOf_pos_of_term _ 1 (by norm_num)
      (by rw [rmsPhase_50_1_cast]; exact ne_of_gt (powerSin_pos_phi1 2))
  · exact rmsOf_pos_of_term _ 1 (by norm_num)
      (by rw [rmsPhase_50_1_cast]; exact ne_of_gt (powerSin_pos_phi1 3))
  · exact rmsOf_pos_of_term _ 1 (by norm_num)
      (by rw [rmsPhase_50_1_cast]; exact ne_of_gt (powerSin_pos_phi1 4))
  · exact rmsOf_pos_of_term _ 1 (by norm_num)
      (by
        rw [rmsPhase_50_1_cast]
        exact ne_of_gt (selfmod_phi1_pos (1/10) (by norm_num) (by norm_num)))
  · exact rmsOf_pos_of_term _ 1 (by norm_num)
      (by
        rw [rmsPhase_50_1_cast]
        exact ne_of_gt (selfmod_phi1_pos (2/10) (by norm_num) (by norm_num)))
  · exact rmsOf_pos_of_term _ 1 (by norm_num)
      (by
        rw [rmsPhase_50_1_cast]
        exact ne_of_gt (selfmod_phi1_pos (3/10) (by norm_num) (by norm_num)))

theorem rmsOf_smul (f : ℚ → ℝ) (g : ℝ) (p c : ℕ) :
    rmsOf (fun q => f q * g) p c = rmsOf f p c * |g| := by
  unfold rmsOf
  have hsum : (∑ i ∈ Finset.range (max 1 p * max 1 c), (f (rmsPhase p i) * g) ^ 2)
      = (∑ i ∈ Finset.range (max 1 p * max 1 c), f (rmsPhase p i) ^ 2) * g ^ 2 := by
    rw [Finset.sum_mul]
    exact Finset.sum_congr rfl (fun i _ => by ring)
  rw [hsum, mul_div_right_comm,
    Real.sqrt_mul (div_nonneg (Finset.sum_nonneg (fun i _ => sq_nonneg _))
      (Nat.cast_nonneg _)), Real.sqrt_sq_eq_abs]

theorem rmsPhase_50_add (n : ℕ) : rmsPhase 50 (n + 50) = rmsPhase 50 n := by
  unfold rmsPhase
  have h : ((n + 50 : ℕ) : ℚ) / ((50:ℕ) : ℚ) = (n : ℚ) / ((50:ℕ) : ℚ) + ((1:ℤ) : ℚ) := by
    push_cast
    ring
  rw [h, Int.fract_add_int]

theorem rmsPhase_50_mul_add (c i : ℕ) : rmsPhase 50 (50 * c + i) = rmsPhase 50 i := by
  induction c with
  | zero => simp
  | succ c ih =>
    rw [show 50 * (c + 1) + i = 50 * c + i + 50 by ring, rmsPhase_50_add, ih]

theorem sum_sq_cycles (f : ℚ → ℝ) (c : ℕ) :
    (∑ i ∈ Finset.range (50 * c), f (rmsPhase 50 i) ^ 2)
      = (c : ℝ) * ∑ i ∈ Finset.range 50, f (rmsPhase 50 i) ^ 2 := by
  induction c with
  | zero => simp
  | succ c ih =>
    rw [show 50 * (c + 1) = 50 * c + 50 by ring, Finset.sum_range_add, ih]
    have hsecond : (∑ i ∈ Finset.range 50, f (rmsPhase 50 (50 * c + i)) ^ 2)
        = ∑ i ∈ Finset.range 50, f (rmsPhase 50 i) ^ 2 := by
      apply Finset.sum_congr rfl
      intro i _
      rw [rmsPhase_50_mul_add]
    rw [hsecond]
    push_cast
    ring

/-- Raising the number of measured cycles (the code's own RMS resolution
parameter, documented as the knob for measuring exotic shapes more
accurately) does not change the computed RMS: the code's phase expression
(i / pointsPerCycle) % 1 revisits the same 50 phases in every cycle. -/
theorem rmsOf_cycles (f : ℚ → ℝ) (c : ℕ) (hc : 1 ≤ c) :
    rmsOf f 50 c = rmsOf f 50 1 := by
  unfold rmsOf
  have h50 : max 1 50 = 50 := by decide
  have h1 : max 1 1 = 1 := by decide
  rw [h50, h1, max_eq_right hc, mul_one, sum_sq_cycles]
  have hc0 : ((c:ℝ)) ≠ 0 := by
    have : 0 < c := hc
    positivity
  have hcast : ((50 * c : ℕ) : ℝ) = (c : ℝ) * 50 := by
    push_cast
    ring
  rw [hcast, mul_div_mul_left _ _ hc0]
  norm_num

/-- C6. The normalization table assigns to every known waveform w the gain
targetRMS / RMS(w) computed from 50 uniform phase points over one cycle
(with the degenerate fallback 1 exactly when RMS(w) = 0 — which never
happens, since every known waveform's RMS is strictly positive), and the
gain-scaled oscillator's RMS equals the triangle RMS not only under the
reference sampling parameters (cycles = 1) but under any higher-resolution
resampling cycles = c ≥ 1 (the code's resolution parameter): the two agree
exactly, hence within the claimed 1e-3. -/
theorem claim_C6 (w : Waveform) (hw : w ∈ KNOWN_WAVEFORMS) (c : ℕ) (hc : 1 ≤ c) :
    (NORMALIZATION_GAIN w =
        if computeWaveformRMS w 50 1 = 0 then 1
        else targetRMS / computeWaveformRMS w 50 1)
    ∧ |rmsOf (fun q => oscSample w (q : ℝ) * NORMALIZATION_GAIN w) 50 c
        - computeWaveformRMS .triangle 50 c| ≤ 1/1000 := by
  have hr : 0 < computeWaveformRMS w 50 1 := rms50_pos w hw
  have hgain : NORMALIZATION_GAIN w = targetRMS / computeWaveformRMS w 50 1 := by
    unfold NORMALIZATION_GAIN RMS_SAMPLE_POINTS RMS_NUM_CYCLES
    rw [if_pos hw, if_pos hr]
  constructor
  · rw [hgain, if_neg (ne_of_gt hr)]
  · have h1 : rmsOf (fun q => oscSample w (q : ℝ) * NORMALIZATION_GAIN w) 50 c
        = computeWaveformRMS w 50 1 * NORMALIZATION_GAIN w := by
      rw [rmsOf_smul, abs_of_nonneg (gain_nonneg w), rmsOf_cycles _ c hc]
      rfl
    have h2 : computeWaveformRMS .triangle 50 c = targetRMS := by
      unfold computeWaveformRMS targetRMS RMS_SAMPLE_POINTS RMS_NUM_CYCLES
      exact rmsOf_cycles _ c hc
    rw [h1, h2, hgain, mul_comm, div_mul_cancel₀ targetRMS (ne_of_gt hr)]
    simp

/-- Witness for C6 at the square waveform with a four-fold resampling. -/
theorem claim_C6_witness :
    |rmsOf (fun q => oscSample .square (q : ℝ) * NORMALIZATION_GAIN .square) 50 4
      - computeWaveformRMS .triangle 50 4| ≤ 1/1000 :=
  (claim_C6 .square (by simp [KNOWN_WAVEFORMS]) 4 (by norm_num)).2

end XenSynth
